import Mathlib

/-!
Shallow embedding of the `Blockchain` class of `ethereumjs-blockchain`
(`src/index.ts`).  Block hashes are abstract natural-number identifiers,
block numbers and difficulties are naturals, and every key family of the
underlying key-value store (headers, bodies, total difficulties, the
`hashToNumber` and `numberToHash` lookups, and the named iterator heads)
is modelled as a sorted association list keyed by a pair of naturals.
-/

/-- Keys of the store: `(number, hash)` for the per-block families,
`(hash, 0)` for `hashToNumber`, `(number, 0)` for `numberToHash`,
`(name, 0)` for the iterator heads. -/
abbrev Key := Nat × Nat

/-- Strict lexicographic order on keys. -/
def keyLt (a b : Key) : Prop := a.1 < b.1 ∨ (a.1 = b.1 ∧ a.2 < b.2)

instance (a b : Key) : Decidable (keyLt a b) := by
  unfold keyLt; infer_instance

theorem keyLt_trans {a b c : Key} (h1 : keyLt a b) (h2 : keyLt b c) : keyLt a c := by
  rcases h1 with h1 | ⟨e1, l1⟩ <;> rcases h2 with h2 | ⟨e2, l2⟩
  · exact Or.inl (Nat.lt_trans h1 h2)
  · exact Or.inl (e2 ▸ h1)
  · exact Or.inl (e1 ▸ h2)
  · exact Or.inr ⟨e1.trans e2, Nat.lt_trans l1 l2⟩

theorem keyLt_irrefl (a : Key) : ¬ keyLt a a := by
  rintro (h | ⟨_, h⟩) <;> exact Nat.lt_irrefl _ h

theorem keyLt_of_ne_of_not_lt {a b : Key} (hne : ¬ a = b) (hnlt : ¬ keyLt a b) :
    keyLt b a := by
  rcases Nat.lt_trichotomy a.1 b.1 with h | h | h
  · exact absurd (Or.inl h) hnlt
  · rcases Nat.lt_trichotomy a.2 b.2 with h2 | h2 | h2
    · exact absurd (Or.inr ⟨h, h2⟩) hnlt
    · exact absurd (Prod.ext h h2) hne
    · exact Or.inr ⟨h.symm, h2⟩
  · exact Or.inl h

/-- Lookup in an association list. -/
def fget {β : Type} (k : Key) : List (Key × β) → Option β
  | [] => none
  | e :: rest => if k = e.1 then some e.2 else fget k rest

/-- Insert-or-replace, keeping the list sorted by `keyLt`. -/
def fset {β : Type} (k : Key) (v : β) : List (Key × β) → List (Key × β)
  | [] => [(k, v)]
  | e :: rest =>
    if k = e.1 then (k, v) :: rest
    else if keyLt k e.1 then (k, v) :: e :: rest
    else e :: fset k v rest

/-- Delete every entry with the given key. -/
def fdel {β : Type} (k : Key) (l : List (Key × β)) : List (Key × β) :=
  l.filter fun e => !(decide (e.1 = k))

/-- Adjacent sortedness by `keyLt` (canonical representation of a finite map). -/
def sortedB {β : Type} : List (Key × β) → Bool
  | [] => true
  | [_] => true
  | a :: b :: rest => decide (keyLt a.1 b.1) && sortedB (b :: rest)

theorem fget_fset_self {β : Type} (k : Key) (v : β) (l : List (Key × β)) :
    fget k (fset k v l) = some v := by
  induction l with
  | nil => simp [fget, fset]
  | cons e rest ih =>
    by_cases h : k = e.1
    · simp [fget, fset, h]
    · by_cases h2 : keyLt k e.1
      · simp [fget, fset, h, h2]
      · simp [fget, fset, h, h2, ih]

theorem fget_fset_ne {β : Type} {k k' : Key} (v : β) (l : List (Key × β))
    (hne : ¬ k = k') : fget k (fset k' v l) = fget k l := by
  induction l with
  | nil => simp [fget, fset, hne]
  | cons e rest ih =>
    by_cases h : k' = e.1
    · subst h
      simp [fget, fset, hne]
    · by_cases h2 : keyLt k' e.1
      · simp only [fset, if_neg h, if_pos h2, fget, if_neg hne]
      · simp only [fset, if_neg h, if_neg h2, fget, ih]

theorem fget_fdel_self {β : Type} (k : Key) (l : List (Key × β)) :
    fget k (fdel k l) = none := by
  induction l with
  | nil => simp [fget, fdel]
  | cons e rest ih =>
    by_cases h : e.1 = k
    · simpa [fdel, h] using ih
    · have hne : ¬ k = e.1 := fun hh => h hh.symm
      simpa [fdel, h, fget, hne] using ih

theorem fget_fdel_ne {β : Type} {k k' : Key} (l : List (Key × β))
    (hne : ¬ k = k') : fget k (fdel k' l) = fget k l := by
  induction l with
  | nil => simp [fget, fdel]
  | cons e rest ih =>
    by_cases h : e.1 = k'
    · have h2 : ¬ k = e.1 := fun hh => hne (hh.trans h)
      have hd : fdel k' (e :: rest) = fdel k' rest := by simp [fdel, h]
      rw [hd, ih]
      simp [fget, h2]
    · have hd : fdel k' (e :: rest) = e :: fdel k' rest := by simp [fdel, h]
      rw [hd]
      by_cases h2 : k = e.1
      · simp [fget, h2]
      · simp [fget, h2, ih]

theorem fset_fset {β : Type} (k : Key) (v v' : β) (l : List (Key × β)) :
    fset k v' (fset k v l) = fset k v' l := by
  induction l with
  | nil => simp [fset]
  | cons e rest ih =>
    by_cases h : k = e.1
    · simp [fset, h]
    · by_cases h2 : keyLt k e.1
      · simp [fset, h, h2]
      · simp [fset, h, h2, ih]

theorem mem_fset {β : Type} {e : Key × β} {k : Key} {v : β} {l : List (Key × β)}
    (h : e ∈ fset k v l) : e = (k, v) ∨ e ∈ l := by
  induction l with
  | nil =>
    simp only [fset, List.mem_singleton] at h
    exact Or.inl h
  | cons e' rest ih =>
    by_cases h1 : k = e'.1
    · simp only [fset] at h
      rw [if_pos h1] at h
      rcases List.mem_cons.mp h with h | h
      · exact Or.inl h
      · exact Or.inr (List.mem_cons_of_mem _ h)
    · by_cases h2 : keyLt k e'.1
      · simp only [fset] at h
        rw [if_neg h1, if_pos h2] at h
        rcases List.mem_cons.mp h with h | h
        · exact Or.inl h
        · exact Or.inr h
      · simp only [fset] at h
        rw [if_neg h1, if_neg h2] at h
        rcases List.mem_cons.mp h with h | h
        · exact Or.inr (by simp [h])
        · rcases ih h with h | h
          · exact Or.inl h
          · exact Or.inr (List.mem_cons_of_mem _ h)

theorem mem_fdel {β : Type} {e : Key × β} {k : Key} {l : List (Key × β)}
    (h : e ∈ fdel k l) : e ∈ l :=
  List.mem_of_mem_filter h

theorem mem_of_fget {β : Type} {k : Key} {v : β} {l : List (Key × β)}
    (h : fget k l = some v) : (k, v) ∈ l := by
  induction l with
  | nil => simp [fget] at h
  | cons e rest ih =>
    by_cases h1 : k = e.1
    · simp only [fget, if_pos h1] at h
      cases h
      subst h1
      exact List.mem_cons_self _ _
    · simp only [fget, if_neg h1] at h
      exact List.mem_cons_of_mem _ (ih h)

/-- Sortedness as a pairwise property. -/
def SortedP {β : Type} (l : List (Key × β)) : Prop :=
  l.Pairwise fun a b => keyLt a.1 b.1

theorem sortedB_iff_sortedP {β : Type} (l : List (Key × β)) :
    sortedB l = true ↔ SortedP l := by
  haveI : IsTrans (Key × β) (fun a b => keyLt a.1 b.1) :=
    ⟨fun _ _ _ h1 h2 => keyLt_trans h1 h2⟩
  have hchain : sortedB l = true ↔ List.Chain' (fun a b : Key × β => keyLt a.1 b.1) l := by
    induction l with
    | nil => simp [sortedB]
    | cons a rest ih =>
      cases rest with
      | nil => simp [sortedB]
      | cons b rest2 =>
        simp only [sortedB, Bool.and_eq_true, decide_eq_true_eq, List.chain'_cons, ih]
  rw [hchain]
  exact List.chain'_iff_pairwise

theorem sortedP_fdel {β : Type} (k : Key) {l : List (Key × β)} (h : SortedP l) :
    SortedP (fdel k l) :=
  List.Pairwise.sublist (List.filter_sublist l) h

theorem sortedP_fset {β : Type} (k : Key) (v : β) {l : List (Key × β)} (h : SortedP l) :
    SortedP (fset k v l) := by
  induction l with
  | nil => simp [fset, SortedP]
  | cons e rest ih =>
    rcases (List.pairwise_cons.mp h) with ⟨hhead, htail⟩
    by_cases h1 : k = e.1
    · subst h1
      simp only [fset, if_pos rfl]
      exact List.pairwise_cons.mpr ⟨hhead, htail⟩
    · by_cases h2 : keyLt k e.1
      · simp only [fset, if_neg h1, if_pos h2]
        exact List.pairwise_cons.mpr
          ⟨by
            intro e' he'
            rcases List.mem_cons.mp he' with rfl | he'
            · exact h2
            · exact keyLt_trans h2 (hhead e' he'), List.pairwise_cons.mpr ⟨hhead, htail⟩⟩
      · simp only [fset, if_neg h1, if_neg h2]
        refine List.pairwise_cons.mpr ⟨?_, ih htail⟩
        intro e' he'
        rcases mem_fset he' with rfl | he'
        · exact keyLt_of_ne_of_not_lt h1 h2
        · exact hhead e' he'

theorem fset_id {β : Type} {k : Key} {v : β} {l : List (Key × β)}
    (hs : SortedP l) (h : fget k l = some v) : fset k v l = l := by
  induction l with
  | nil => simp [fget] at h
  | cons e rest ih =>
    rcases (List.pairwise_cons.mp hs) with ⟨hhead, htail⟩
    by_cases h1 : k = e.1
    · simp only [fget, if_pos h1] at h
      cases h
      simp only [fset, if_pos h1]
      rw [h1]
    · simp only [fget, if_neg h1] at h
      have hk : (k, v) ∈ rest := mem_of_fget h
      have hlt : keyLt e.1 k := by
        simpa using hhead (k, v) hk
      have h2 : ¬ keyLt k e.1 := by
        intro hcon
        exact keyLt_irrefl _ (keyLt_trans hcon hlt)
      simp only [fset, if_neg h1, if_neg h2, ih htail h]

/-! ## Data model -/

/-- A block header as the put path reads it: `parentHash`, `number`,
`difficulty`, and the content-derived `hash` of the block, kept abstract
as a natural identifier (`block.hash()` in the source). -/
structure Header where
  parentHash : Nat
  number : Nat
  difficulty : Nat
  hash : Nat
deriving DecidableEq, Repr

/-- The argument of `_putBlockOrHeader`: the header, whether the item was a
standalone `Block.Header` (`isHeader` in the source), whether the block has a
non-empty body (`block.transactions.length || block.uncleHeaders.length`),
and the chain id of the item's `_common`. -/
structure PutItem where
  header : Header
  isHeader : Bool
  hasBody : Bool
  chainId : Nat
deriving DecidableEq, Repr

/-- The persistent and in-memory state of a `Blockchain` instance.  The
write-through caches and the key-value store are collapsed into one map per
key family (every successful batch writes both in lockstep), and the
in-memory head pointers `_headHeader`, `_headBlock`, `_heads`, `_genesis`
are fields (they are persisted by `_saveHeadOps` on every commit). -/
structure ChainState where
  headers : List (Key × Header)
  bodies : List (Key × Nat)
  tds : List (Key × Nat)
  hashToNumber : List (Key × Nat)
  numberToHash : List (Key × Nat)
  heads : List (Key × Nat)
  headHeader : Option Nat
  headBlock : Option Nat
  genesis : Option Nat
deriving DecidableEq, Repr

/-- The state of a freshly constructed instance before `_init` runs. -/
def emptyState : ChainState :=
  { headers := [], bodies := [], tds := [], hashToNumber := [],
    numberToHash := [], heads := [], headHeader := none, headBlock := none,
    genesis := none }

/-- Every error kind surfaced by the embedded operations.  `fuelOut` is an
artifact of bounding the source's recursions; all claims either hypothesise
success or evaluate with ample fuel. -/
inductive Err where
  | chainMismatch
  | alreadyGenesis
  | invalidBlock
  | invalidPOW
  | notFound
  | parentMissing
  | brokenChain
  | bodyMissing
  | noHead
  | fuelOut
deriving DecidableEq, Repr

/-- `_getTd(hash)` with the number omitted: `_lookupByHashNumber` resolves
`hashToNumber` first and then reads the td key. -/
def getTdByHash (s : ChainState) (h : Nat) : Option Nat :=
  match fget (h, 0) s.hashToNumber with
  | none => none
  | some n => fget (n, h) s.tds

/-! ## The put pipeline (`_putBlockOrHeader`) -/

/-- `getCurrentTd`: for a genesis put both current TDs are zero, otherwise
the TDs of `_headHeader` and `_headBlock` are read (each via a
`hashToNumber` lookup followed by a td read; a missing entry is the
`NotFoundError` of the database). -/
def currentTds (s : ChainState) (isGenesis : Bool) : Except Err (Nat × Nat) :=
  if isGenesis then .ok (0, 0)
  else
    match s.headHeader with
    | none => .error .notFound
    | some hh =>
      match getTdByHash s hh with
      | none => .error .notFound
      | some a =>
        match s.headBlock with
        | none => .error .notFound
        | some hb =>
          match getTdByHash s hb with
          | none => .error .notFound
          | some b => .ok (a, b)

/-- `getBlockTd`: a genesis put keeps `td = header.difficulty`; otherwise the
parent td at `(parentHash, number - 1)` is read and added.  For a non-genesis
item with `number = 0` the source computes the key for the BN value `-1`,
which can never be a stored key (stored numbers are the non-negative header
numbers), so the lookup fails. -/
def blockTd (s : ChainState) (isGenesis : Bool) (hdr : Header) : Except Err Nat :=
  if isGenesis then .ok hdr.difficulty
  else if hdr.number = 0 then .error .parentMissing
  else
    match fget (hdr.number - 1, hdr.parentHash) s.tds with
    | none => .error .parentMissing
    | some ptd => .ok (ptd + hdr.difficulty)

/-- `saveLookups` inside `_rebuildCanonical`: record
`numberToHash(number) = hash` and `hashToNumber(hash) = number`. -/
def saveLookups (h n : Nat) (s : ChainState) : ChainState :=
  { s with numberToHash := fset (n, 0) h s.numberToHash,
           hashToNumber := fset (h, 0) n s.hashToNumber }

/-- `_deleteStaleAssignments(number, headHash)`: walk upward while
`numberToHash(number)` exists; delete the assignment, rewrite every iterator
head equal to the stale hash to `headHash`, likewise `_headBlock`, and
continue with `number + 1`. -/
def deleteStaleAssignments (fuel : Nat) (number : Nat) (headHash : Nat)
    (s : ChainState) : Except Err ChainState :=
  match fuel with
  | 0 => .error .fuelOut
  | fuel + 1 =>
    match fget (number, 0) s.numberToHash with
    | none => .ok s
    | some hash =>
      let s1 := { s with numberToHash := fdel (number, 0) s.numberToHash }
      let s2 := { s1 with heads := s1.heads.map fun e =>
                    (e.1, if e.2 = hash then headHash else e.2) }
      let s3 := if s2.headBlock = some hash
                then { s2 with headBlock := some headHash } else s2
      deleteStaleAssignments fuel (number + 1) headHash s3

/-- `_rebuildCanonical(header)`: walk the new chain backward.  At `number = 0`
write the lookups and stop.  If the existing assignment equals the walked
hash, stop and apply the flagged stale-head rewrites — the source sets them
to the hash of the header the walk stopped at.  Otherwise write the lookups,
flag iterator heads (and `_headBlock`) equal to the stale hash, and recurse
into the parent header; a missing parent aborts the put. -/
def rebuildCanonical (fuel : Nat) (hdr : Header) (staleHeads : List Nat)
    (staleHeadBlock : Bool) (s : ChainState) : Except Err ChainState :=
  match fuel with
  | 0 => .error .fuelOut
  | fuel + 1 =>
    if hdr.number = 0 then .ok (saveLookups hdr.hash 0 s)
    else
      match fget (hdr.number, 0) s.numberToHash with
      | some sh =>
        if sh = hdr.hash then
          let s1 := { s with heads := s.heads.map fun e =>
                        (e.1, if staleHeads.contains e.1.1 then hdr.hash else e.2) }
          let s2 := if staleHeadBlock
                    then { s1 with headBlock := some hdr.hash } else s1
          .ok s2
        else
          let s1 := saveLookups hdr.hash hdr.number s
          let newStale := staleHeads ++
            ((s.heads.filter fun e => e.2 = sh).map fun e => e.1.1)
          let newFlag := staleHeadBlock || decide (s.headBlock = some sh)
          match fget (hdr.number - 1, hdr.parentHash) s.headers with
          | none => .error .brokenChain
          | some parent => rebuildCanonical fuel parent newStale newFlag s1
      | none =>
        let s1 := saveLookups hdr.hash hdr.number s
        match fget (hdr.number - 1, hdr.parentHash) s.headers with
        | none => .error .brokenChain
        | some parent => rebuildCanonical fuel parent staleHeads staleHeadBlock s1

/-- Fuel that bounds both recursions started by one put (the source
recursions terminate on store contents; this bound is never reached on
well-formed states and merely makes the embedding total). -/
def putFuel (s : ChainState) (hdr : Header) : Nat :=
  s.numberToHash.length + s.headers.length + hdr.number + 2

/-- `rebuildInfo` inside `_putBlockOrHeader`: stage the td, header and
(for genesis or a non-empty body) body writes; then either promote the item
to the canonical head (`block.isGenesis() || td.gt(currentTd.header)`) and
run `_deleteStaleAssignments` from `number + 1` followed by
`_rebuildCanonical`, or, in the other branch, possibly advance `_headBlock`
(`td.gt(currentTd.block)` on a full block) and record the
`hashToNumber` lookup only.  The source runs the two walks through
`async.parallel`; they touch disjoint assignment ranges and the embedding
fixes the listed order. -/
def rebuildInfoStep (item : PutItem) (isGenesis : Bool)
    (td ctdHeader ctdBlock : Nat) (s : ChainState) : Except Err ChainState :=
  let hdr := item.header
  let s1 := { s with tds := fset (hdr.number, hdr.hash) td s.tds,
                     headers := fset (hdr.number, hdr.hash) hdr s.headers }
  let s2 := if isGenesis || item.hasBody
            then { s1 with bodies := fset (hdr.number, hdr.hash) 0 s1.bodies }
            else s1
  if hdr.number = 0 ∨ ctdHeader < td then
    let s3 := { s2 with headHeader := some hdr.hash }
    let s4 := if item.isHeader then s3 else { s3 with headBlock := some hdr.hash }
    let s5 := if hdr.number = 0 then { s4 with genesis := some hdr.hash } else s4
    (deleteStaleAssignments (putFuel s hdr) (hdr.number + 1) hdr.hash s5).bind
      (rebuildCanonical (putFuel s hdr) hdr [] false)
  else
    let s3 := if ctdBlock < td ∧ item.isHeader = false
              then { s2 with headBlock := some hdr.hash } else s2
    .ok { s3 with hashToNumber := fset (hdr.hash, 0) hdr.number s3.hashToNumber }

/-- `_putBlockOrHeader(item, isGenesis)`.  The external collaborators are
abstracted as flags: `validOk` is the outcome of `block.validate` and
`powOk` the outcome of `ethash.verifyPOW`; both are consulted only when the
instance was constructed with `validate = true`.  The pipeline is the
source's `async.series`: chain check, `verify`, `verifyPOW`,
`getCurrentTd`, `getBlockTd`, `rebuildInfo`, commit. -/
def putBlockOrHeader (selfChainId : Nat) (validate validOk powOk : Bool)
    (isGenesis : Bool) (item : PutItem) (s : ChainState) : Except Err ChainState :=
  if ¬ item.chainId = selfChainId then .error .chainMismatch
  else if validate = true ∧ isGenesis = false ∧ item.header.number = 0 then
    .error .alreadyGenesis
  else if validate = true ∧ validOk = false then .error .invalidBlock
  else if validate = true ∧ powOk = false then .error .invalidPOW
  else
    match currentTds s isGenesis with
    | .error e => .error e
    | .ok (ctdH, ctdB) =>
      match blockTd s isGenesis item.header with
      | .error e => .error e
      | .ok td => rebuildInfoStep item isGenesis td ctdH ctdB s

/-- The state observed by the caller after a put: on an error the pipeline
aborted and the state is the old one. -/
def runPut (selfChainId : Nat) (validate validOk powOk : Bool)
    (isGenesis : Bool) (item : PutItem) (s : ChainState) : ChainState :=
  match putBlockOrHeader selfChainId validate validOk powOk isGenesis item s with
  | .ok s' => s'
  | .error _ => s

/-- `_init` on an empty database: build and put the canonical genesis block
(`_setCanonicalGenesisBlock`), then set `heads = {}` and both head pointers
to the genesis hash. -/
def initState (selfChainId : Nat) (validate validOk powOk : Bool)
    (g : Header) : Except Err ChainState :=
  match putBlockOrHeader selfChainId validate validOk powOk true
      { header := g, isHeader := false, hasBody := false, chainId := selfChainId }
      emptyState with
  | .error e => .error e
  | .ok s => .ok { s with heads := [], headHeader := s.genesis, headBlock := s.genesis }

/-- One call of a put sequence. -/
structure PutCall where
  validate : Bool
  validOk : Bool
  powOk : Bool
  isGenesis : Bool
  item : PutItem
deriving DecidableEq, Repr

/-- Run a sequence of puts, failing if any put fails. -/
def runPuts (selfChainId : Nat) (calls : List PutCall) (s : ChainState) :
    Except Err ChainState :=
  match calls with
  | [] => .ok s
  | c :: rest =>
    match putBlockOrHeader selfChainId c.validate c.validOk c.powOk
        c.isGenesis c.item s with
    | .error e => .error e
    | .ok s' => runPuts selfChainId rest s'

/-! ## Reads, iterator and delete path -/

/-- Modelled from the spec: `DBManager.getBlock` by number (the file
`dbManager.ts` of this repository is not under `src/`).  Per the spec a
number lookup resolves `numberToHash` first, composes header and body, and
when the body is missing on a non-genesis block reports `BodyMissing`; a
missing assignment or header is `NotFound`. -/
def getBlockByNumber (s : ChainState) (n : Nat) : Except Err Header :=
  match fget (n, 0) s.numberToHash with
  | none => .error .notFound
  | some h =>
    match fget (n, h) s.headers with
    | none => .error .notFound
    | some hdr =>
      if n = 0 ∨ (fget (n, h) s.bodies).isSome then .ok hdr
      else .error .bodyMissing

/-- Modelled from the spec: `DBManager.getBlock` by hash (the file
`dbManager.ts` of this repository is not under `src/`).  A hash lookup
resolves `hashToNumber` first and then proceeds as the number lookup. -/
def getBlockByHash (s : ChainState) (h : Nat) : Except Err Header :=
  match fget (h, 0) s.hashToNumber with
  | none => .error .notFound
  | some n =>
    match fget (n, h) s.headers with
    | none => .error .notFound
    | some hdr =>
      if n = 0 ∨ (fget (n, h) s.bodies).isSome then .ok hdr
      else .error .bodyMissing

/-- `getHead(name)`: the hash is `this._heads[name] || this._headBlock`;
if neither is set the call fails with `'No head found.'`, otherwise the
block at that hash is returned. -/
def getHead (s : ChainState) (name : Nat) : Except Err Header :=
  match fget (name, 0) s.heads with
  | some h => getBlockByHash s h
  | none =>
    match s.headBlock with
    | none => .error .noHead
    | some h => getBlockByHash s h

/-- Result of an iterator run: the `(block, reorg)` pairs passed to
`onBlock`, the final state (the iterator mutates `_heads[name]` as it
advances and persists the heads on normal termination), and whether the run
terminated normally (`NotFoundError` at the chain tip) or aborted. -/
structure IterResult where
  yields : List (Header × Bool)
  state : ChainState
  ok : Bool
deriving DecidableEq, Repr

/-- The loop body of `_iterator`: `getBlock(blockNumber)`; on success set
`heads[name] = block.hash()` and call `onBlock` with
`reorg = lastBlock ? lastBlock.hash().equals(block.header.parentHash) : false`
(the source's comparison, not its negation), then advance.  A
`NotFoundError` terminates normally; any other read error aborts. -/
def iterLoop (fuel : Nat) (name : Nat) (lastBlock : Option Header) (n : Nat)
    (acc : List (Header × Bool)) (s : ChainState) : IterResult :=
  match fuel with
  | 0 => ⟨acc.reverse, s, false⟩
  | fuel + 1 =>
    match getBlockByNumber s n with
    | .error .notFound => ⟨acc.reverse, s, true⟩
    | .error _ => ⟨acc.reverse, s, false⟩
    | .ok blk =>
      let s1 := { s with heads := fset (name, 0) blk.hash s.heads }
      let reorg : Bool :=
        match lastBlock with
        | some lb => decide (lb.hash = blk.parentHash)
        | none => false
      iterLoop fuel name (some blk) (n + 1) ((blk, reorg) :: acc) s1

/-- `_iterator(name, func)`: start at `heads[name] || genesis`; a missing
start hash returns immediately; resolve the start number and iterate from
`number + 1`. -/
def iteratorModel (fuel : Nat) (s : ChainState) (name : Nat) : IterResult :=
  let start := match fget (name, 0) s.heads with
    | some h => some h
    | none => s.genesis
  match start with
  | none => ⟨[], s, true⟩
  | some h =>
    match fget (h, 0) s.hashToNumber with
    | none => ⟨[], s, false⟩
    | some n0 => iterLoop fuel name none (n0 + 1) [] s

/-- `_delChild(hash, number, headHash)`: delete the header, body,
`hashToNumber` and td keys of the block; when `headHash` is set, repoint
`_headHeader`/`_headBlock` if they equal the deleted hash and recurse into
the canonical child at `number + 1` (stopping when none exists). -/
def delChild (fuel : Nat) (hash : Nat) (number : Nat) (headHash : Option Nat)
    (s : ChainState) : Except Err ChainState :=
  match fuel with
  | 0 => .error .fuelOut
  | fuel + 1 =>
    let s1 := { s with headers := fdel (number, hash) s.headers,
                       bodies := fdel (number, hash) s.bodies,
                       hashToNumber := fdel (hash, 0) s.hashToNumber,
                       tds := fdel (number, hash) s.tds }
    match headHash with
    | none => .ok s1
    | some hh =>
      let s2 := if s1.headHeader = some hash
                then { s1 with headHeader := some hh } else s1
      let s3 := if s2.headBlock = some hash
                then { s2 with headBlock := some hh } else s2
      match fget (number + 1, 0) s3.numberToHash with
      | none => .ok s3
      | some ch =>
        match fget (number + 1, ch) s3.headers with
        | none => .ok s3
        | some child => delChild fuel child.hash child.number (some hh) s3

/-- `_delBlock(blockHash)`: resolve the header (hash lookup then header
read), check canonicity via `numberToHash(number)`, run `_delChild` (with
the parent as new head only when canonical), and for a canonical block also
`_deleteStaleAssignments` from its number with the parent hash. -/
def delBlockModel (fuel : Nat) (blockHash : Nat) (s : ChainState) :
    Except Err ChainState :=
  match fget (blockHash, 0) s.hashToNumber with
  | none => .error .notFound
  | some n =>
    match fget (n, blockHash) s.headers with
    | none => .error .notFound
    | some hdr =>
      let blockNumber := hdr.number
      let parentHash := hdr.parentHash
      let inCanonical := fget (blockNumber, 0) s.numberToHash = some blockHash
      match delChild fuel blockHash blockNumber
          (if inCanonical then some parentHash else none) s with
      | .error e => .error e
      | .ok s1 =>
        if inCanonical then
          deleteStaleAssignments fuel blockNumber parentHash s1
        else .ok s1

/-! ## Frame lemmas for the two canonical-chain walks -/

theorem deleteStale_frame {fuel number headHash : Nat} {s s' : ChainState}
    (h : deleteStaleAssignments fuel number headHash s = .ok s') :
    s'.headers = s.headers ∧ s'.bodies = s.bodies ∧ s'.tds = s.tds ∧
    s'.hashToNumber = s.hashToNumber ∧ s'.headHeader = s.headHeader ∧
    s'.genesis = s.genesis := by
  induction fuel generalizing number s with
  | zero => simp [deleteStaleAssignments] at h
  | succ fuel ih =>
    rw [deleteStaleAssignments] at h
    cases hg : fget (number, 0) s.numberToHash with
    | none =>
      rw [hg] at h
      cases h
      exact ⟨rfl, rfl, rfl, rfl, rfl, rfl⟩
    | some hash =>
      rw [hg] at h
      simp only [] at h
      have hframe := ih h
      rcases hframe with ⟨e1, e2, e3, e4, e5, e6⟩
      rw [e1, e2, e3, e4, e5, e6]
      split_ifs <;> exact ⟨rfl, rfl, rfl, rfl, rfl, rfl⟩

theorem rebuild_frame {fuel : Nat} {hdr : Header} {st : List Nat} {fl : Bool}
    {s s' : ChainState} (h : rebuildCanonical fuel hdr st fl s = .ok s') :
    s'.headers = s.headers ∧ s'.bodies = s.bodies ∧ s'.tds = s.tds ∧
    s'.headHeader = s.headHeader ∧ s'.genesis = s.genesis := by
  induction fuel generalizing hdr st fl s with
  | zero => simp [rebuildCanonical] at h
  | succ fuel ih =>
    rw [rebuildCanonical] at h
    by_cases h0 : hdr.number = 0
    · rw [if_pos h0] at h
      cases h
      exact ⟨rfl, rfl, rfl, rfl, rfl⟩
    · rw [if_neg h0] at h
      cases hg : fget (hdr.number, 0) s.numberToHash with
      | none =>
        rw [hg] at h
        cases hp : fget (hdr.number - 1, hdr.parentHash) s.headers with
        | none => rw [hp] at h; cases h
        | some parent =>
          rw [hp] at h
          have := ih h
          simpa [saveLookups] using this
      | some sh =>
        rw [hg] at h
        simp only [] at h
        by_cases hsh : sh = hdr.hash
        · rw [if_pos hsh] at h
          split_ifs at h <;> (cases h; exact ⟨rfl, rfl, rfl, rfl, rfl⟩)
        · rw [if_neg hsh] at h
          cases hp : fget (hdr.number - 1, hdr.parentHash) s.headers with
          | none => rw [hp] at h; cases h
          | some parent =>
            rw [hp] at h
            have := ih h
            simpa [saveLookups] using this

/-! ## Concrete fixtures -/

/-- A genesis header. -/
def cGenesis : Header := { parentHash := 0, number := 0, difficulty := 5, hash := 100 }

/-- Block 1, child of the genesis. -/
def cBlock1 : Header := { parentHash := 100, number := 1, difficulty := 7, hash := 101 }

/-- Block 2, child of block 1. -/
def cBlock2 : Header := { parentHash := 101, number := 2, difficulty := 9, hash := 102 }

/-- The state reached by `_init` on an empty store followed by putting
blocks 1 and 2 (it equals `runPuts` of those two puts on the init state). -/
def chainABC : ChainState :=
  { headers := [((0, 100), cGenesis), ((1, 101), cBlock1), ((2, 102), cBlock2)],
    bodies := [((0, 100), 0), ((1, 101), 0), ((2, 102), 0)],
    tds := [((0, 100), 5), ((1, 101), 12), ((2, 102), 21)],
    hashToNumber := [((100, 0), 0), ((101, 0), 1), ((102, 0), 2)],
    numberToHash := [((0, 0), 100), ((1, 0), 101), ((2, 0), 102)],
    heads := [],
    headHeader := some 102, headBlock := some 102, genesis := some 100 }

/-! ## Claim C1 -/

/-- Claim C1 (code bug): iterating `chainABC` from the genesis yields block 1
and then block 2, a strictly linear advance — block 2's `parentHash` equals
block 1's hash — yet the flag passed for block 2 is `true`, because the
source computes `reorg = lastBlock.hash().equals(block.header.parentHash)`
without the negation the claim (and the spec) state.  Under the claim the
flag would have to be `false` for every yield of this run. -/
theorem iterator_reorg_flag_inverted :
    (iteratorModel 10 chainABC 0).yields = [(cBlock1, false), (cBlock2, true)] ∧
    cBlock2.parentHash = cBlock1.hash := by
  exact ⟨rfl, rfl⟩

/-! ## Claim C10 -/

/-- Claim C10: when `name` has no entry in the iterator-heads mapping,
`getHead` reads the block at `_headBlock` (not `_headHeader`), and it fails
with the `'No head found.'` error exactly when `_headBlock` is unset too. -/
theorem getHead_defaults_to_headBlock (s : ChainState) (name : Nat)
    (hname : fget (name, 0) s.heads = none) :
    getHead s name = (match s.headBlock with
      | none => .error .noHead
      | some hb => getBlockByHash s hb) ∧
    (getHead s name = .error .noHead ↔ s.headBlock = none) := by
  have hbh : ∀ hb : Nat, getBlockByHash s hb ≠ .error .noHead := by
    intro hb hcon
    rw [getBlockByHash] at hcon
    cases hn : fget (hb, 0) s.hashToNumber with
    | none => simp [hn] at hcon
    | some n =>
      cases hh : fget (n, hb) s.headers with
      | none => simp [hn, hh] at hcon
      | some hdr =>
        simp only [hn, hh] at hcon
        split_ifs at hcon <;> simp at hcon
  constructor
  · rw [getHead, hname]
  · constructor
    · intro h
      cases hhb : s.headBlock with
      | none => rfl
      | some hb =>
        rw [getHead, hname, hhb] at h
        exact absurd h (hbh hb)
    · intro h
      rw [getHead, hname, h]

/-- Witness for C10 at a concrete input: `chainABC` has no head named `0`
and `_headBlock = 102`, so `getHead` returns the block at hash 102
(block 2) and does not fail. -/
theorem getHead_defaults_to_headBlock_witness :
    getHead chainABC 0 = (match chainABC.headBlock with
      | none => .error .noHead
      | some hb => getBlockByHash chainABC hb) ∧
    (getHead chainABC 0 = .error .noHead ↔ chainABC.headBlock = none) :=
  getHead_defaults_to_headBlock chainABC 0 rfl

/-! ## Claim C7 -/

/-- Claim C7: deleting a persisted block `h` that is not canonical
(`numberToHash` of its number differs from `h`) removes exactly the four
keys of `h` itself — header, body, `hashToNumber` and td — and leaves every
`numberToHash` assignment, `_headHeader`, `_headBlock` and the iterator
heads unchanged; no descendant is deleted. -/
theorem delBlock_non_canonical_frame (fuel n h : Nat) (hdr : Header)
    (s : ChainState)
    (h1 : fget (h, 0) s.hashToNumber = some n)
    (h2 : fget (n, h) s.headers = some hdr)
    (h3 : hdr.number = n)
    (h4 : ¬ fget (n, 0) s.numberToHash = some h) :
    delBlockModel (fuel + 1) h s = .ok
      { s with headers := fdel (n, h) s.headers,
               bodies := fdel (n, h) s.bodies,
               hashToNumber := fdel (h, 0) s.hashToNumber,
               tds := fdel (n, h) s.tds } := by
  subst h3
  rw [delBlockModel]
  simp only [h1, h2]
  rw [if_neg h4, delChild]
  simp only []
  rw [if_neg h4]

/-- Witness for C7: in `chainABC` extended with a non-canonical sibling at
number 2 (hash 112), deleting 112 removes only its own four keys. -/
theorem delBlock_non_canonical_frame_witness :
    delBlockModel 5 112
      { chainABC with
        headers := chainABC.headers ++ [((2, 112), ⟨101, 2, 9, 112⟩)],
        tds := chainABC.tds ++ [((2, 112), 21)],
        hashToNumber := chainABC.hashToNumber ++ [((112, 0), 2)] } = .ok
      { chainABC with
        headers := fdel (2, 112) (chainABC.headers ++ [((2, 112), ⟨101, 2, 9, 112⟩)]),
        bodies := fdel (2, 112) chainABC.bodies,
        hashToNumber := fdel (112, 0) (chainABC.hashToNumber ++ [((112, 0), 2)]),
        tds := fdel (2, 112) (chainABC.tds ++ [((2, 112), 21)]) } :=
  delBlock_non_canonical_frame 4 2 112 ⟨101, 2, 9, 112⟩ _
    (by decide) (by decide) (by decide) (by decide)

/-! ## Claim C6 -/

/-- Claim C6: with `validate = true`, a structural-validation failure or a
PoW-verification failure makes the put return that error, and the pipeline
aborts before `rebuildInfo` stages anything, so the store, the caches and
all head pointers are unchanged (`runPut` returns the old state). -/
theorem put_validation_failure_no_commit (cid : Nat) (validOk powOk isG : Bool)
    (item : PutItem) (s : ChainState)
    (hchain : item.chainId = cid)
    (hgen : isG = true ∨ ¬ item.header.number = 0) :
    (validOk = false →
      putBlockOrHeader cid true validOk powOk isG item s = .error .invalidBlock ∧
      runPut cid true validOk powOk isG item s = s) ∧
    (validOk = true → powOk = false →
      putBlockOrHeader cid true validOk powOk isG item s = .error .invalidPOW ∧
      runPut cid true validOk powOk isG item s = s) := by
  have hg2 : ¬ (true = true ∧ isG = false ∧ item.header.number = 0) := by
    rcases hgen with h | h
    · rintro ⟨-, h2, -⟩; rw [h] at h2; cases h2
    · rintro ⟨-, -, h3⟩; exact h h3
  constructor
  · intro hvo
    have hput : putBlockOrHeader cid true validOk powOk isG item s =
        .error .invalidBlock := by
      rw [putBlockOrHeader, if_neg (by rw [hchain]; exact fun hc => hc rfl),
        if_neg hg2, if_pos ⟨rfl, hvo⟩]
    exact ⟨hput, by rw [runPut, hput]⟩
  · intro hvo hpo
    have hput : putBlockOrHeader cid true validOk powOk isG item s =
        .error .invalidPOW := by
      rw [putBlockOrHeader, if_neg (by rw [hchain]; exact fun hc => hc rfl),
        if_neg hg2, if_neg (by rintro ⟨-, h⟩; rw [hvo] at h; cases h),
        if_pos ⟨rfl, hpo⟩]
    exact ⟨hput, by rw [runPut, hput]⟩

/-- Witness for C6: a put of block 1 into `chainABC` with failing structural
validation, and one with failing PoW, both abort with the matching error and
leave the state untouched. -/
theorem put_validation_failure_no_commit_witness :
    ((false : Bool) = false →
      putBlockOrHeader 1 true false true false
        { header := cBlock1, isHeader := false, hasBody := true, chainId := 1 }
        chainABC = .error .invalidBlock ∧
      runPut 1 true false true false
        { header := cBlock1, isHeader := false, hasBody := true, chainId := 1 }
        chainABC = chainABC) ∧
    ((false : Bool) = true → (true : Bool) = false →
      putBlockOrHeader 1 true false true false
        { header := cBlock1, isHeader := false, hasBody := true, chainId := 1 }
        chainABC = .error .invalidPOW ∧
      runPut 1 true false true false
        { header := cBlock1, isHeader := false, hasBody := true, chainId := 1 }
        chainABC = chainABC) :=
  put_validation_failure_no_commit 1 false true false
    { header := cBlock1, isHeader := false, hasBody := true, chainId := 1 }
    chainABC rfl (Or.inr (by decide))

/-! ## Destructuring a successful put -/

theorem except_bind_ok {x : Except Err ChainState}
    {f : ChainState → Except Err ChainState} {s' : ChainState}
    (h : x.bind f = .ok s') : ∃ y, x = .ok y ∧ f y = .ok s' := by
  cases x with
  | error e => cases h
  | ok y => exact ⟨y, rfl, h⟩

theorem put_ok_destruct {cid : Nat} {v vo po isG : Bool} {item : PutItem}
    {s s' : ChainState}
    (h : putBlockOrHeader cid v vo po isG item s = .ok s') :
    ∃ ctdH ctdB td, currentTds s isG = .ok (ctdH, ctdB) ∧
      blockTd s isG item.header = .ok td ∧
      rebuildInfoStep item isG td ctdH ctdB s = .ok s' := by
  rw [putBlockOrHeader] at h
  split_ifs at h <;> try (cases h)
  cases hc : currentTds s isG with
  | error e => rw [hc] at h; cases h
  | ok p =>
    obtain ⟨ctdH, ctdB⟩ := p
    rw [hc] at h
    simp only [] at h
    cases hb : blockTd s isG item.header with
    | error e => rw [hb] at h; cases h
    | ok td =>
      rw [hb] at h
      simp only [] at h
      exact ⟨ctdH, ctdB, td, rfl, rfl, h⟩

theorem rebuildInfo_ok_tds {item : PutItem} {isG : Bool} {td ctdH ctdB : Nat}
    {s s' : ChainState}
    (h : rebuildInfoStep item isG td ctdH ctdB s = .ok s') :
    s'.tds = fset (item.header.number, item.header.hash) td s.tds := by
  rw [rebuildInfoStep] at h
  simp only [] at h
  split_ifs at h <;>
    first
      | (obtain ⟨s6, hd, hr⟩ := except_bind_ok h
         have e1 := (deleteStale_frame hd).2.2.1
         have e2 := (rebuild_frame hr).2.2.1
         rw [e2, e1])
      | (cases h; rfl)

/-! ## Claim C4 -/

/-- Claim C4: a put with `isGenesis` persists the block's own difficulty as
its total difficulty; a non-genesis put persists the stored td of
`(parentHash, number - 1)` plus the block's difficulty; and when that parent
td is absent the put fails and commits nothing (the caller's state is
unchanged). -/
theorem put_persisted_td (cid : Nat) (v vo po : Bool) (item : PutItem)
    (s s' : ChainState) (ptd : Nat) :
    (putBlockOrHeader cid v vo po true item s = .ok s' →
      fget (item.header.number, item.header.hash) s'.tds =
        some item.header.difficulty) ∧
    (fget (item.header.number - 1, item.header.parentHash) s.tds = some ptd →
      putBlockOrHeader cid v vo po false item s = .ok s' →
      fget (item.header.number, item.header.hash) s'.tds =
        some (ptd + item.header.difficulty)) ∧
    (¬ item.header.number = 0 →
      fget (item.header.number - 1, item.header.parentHash) s.tds = none →
      (putBlockOrHeader cid v vo po false item s).isOk = false ∧
      runPut cid v vo po false item s = s) := by
  refine ⟨?_, ?_, ?_⟩
  · intro h
    obtain ⟨ctdH, ctdB, td, hc, hb, hr⟩ := put_ok_destruct h
    have htd : td = item.header.difficulty := by
      rw [blockTd, if_pos rfl] at hb
      cases hb; rfl
    rw [rebuildInfo_ok_tds hr, htd, fget_fset_self]
  · intro hp h
    obtain ⟨ctdH, ctdB, td, hc, hb, hr⟩ := put_ok_destruct h
    have htd : td = ptd + item.header.difficulty := by
      rw [blockTd] at hb
      by_cases h0 : item.header.number = 0
      · rw [if_neg (by simp), if_pos h0] at hb; cases hb
      · rw [if_neg (by simp), if_neg h0, hp] at hb
        cases hb; rfl
    rw [rebuildInfo_ok_tds hr, htd, fget_fset_self]
  · intro h0 hnone
    have key : (putBlockOrHeader cid v vo po false item s).isOk = false := by
      rw [putBlockOrHeader]
      split_ifs <;> try rfl
      cases hc : currentTds s false with
      | error e => simp only [hc]; rfl
      | ok p =>
        obtain ⟨ctdH, ctdB⟩ := p
        have hb : blockTd s false item.header = .error .parentMissing := by
          rw [blockTd, if_neg (by simp), if_neg h0, hnone]
        simp only [hc, hb]
        rfl
    refine ⟨key, ?_⟩
    rw [runPut]
    cases hres : putBlockOrHeader cid v vo po false item s with
    | ok s2 => rw [hres] at key; exact Bool.noConfusion key
    | error e => rfl

/-- The state holding only the canonical genesis block. -/
def genesisOnly : ChainState :=
  { headers := [((0, 100), cGenesis)], bodies := [((0, 100), 0)],
    tds := [((0, 100), 5)], hashToNumber := [((100, 0), 0)],
    numberToHash := [((0, 0), 100)], heads := [],
    headHeader := some 100, headBlock := some 100, genesis := some 100 }

/-- Witness for C4: the genesis put stores `td = 5`; putting block 1 on the
genesis stores `td = 5 + 7`; putting a block with no stored parent td fails
and leaves the state untouched. -/
theorem put_persisted_td_witness :
    fget (cGenesis.number, cGenesis.hash)
      (runPut 1 false true true true
        { header := cGenesis, isHeader := false, hasBody := false, chainId := 1 }
        emptyState).tds = some cGenesis.difficulty ∧
    fget (cBlock1.number, cBlock1.hash)
      (runPut 1 false true true false
        { header := cBlock1, isHeader := false, hasBody := true, chainId := 1 }
        genesisOnly).tds = some (5 + cBlock1.difficulty) ∧
    ((putBlockOrHeader 1 false true true false
        { header := { parentHash := 999, number := 4, difficulty := 1, hash := 200 },
          isHeader := false, hasBody := true, chainId := 1 }
        genesisOnly).isOk = false ∧
      runPut 1 false true true false
        { header := { parentHash := 999, number := 4, difficulty := 1, hash := 200 },
          isHeader := false, hasBody := true, chainId := 1 }
        genesisOnly = genesisOnly) :=
  ⟨(put_persisted_td 1 false true true
      { header := cGenesis, isHeader := false, hasBody := false, chainId := 1 }
      emptyState
      (runPut 1 false true true true
        { header := cGenesis, isHeader := false, hasBody := false, chainId := 1 }
        emptyState) 0).1 rfl,
   (put_persisted_td 1 false true true
      { header := cBlock1, isHeader := false, hasBody := true, chainId := 1 }
      genesisOnly
      (runPut 1 false true true false
        { header := cBlock1, isHeader := false, hasBody := true, chainId := 1 }
        genesisOnly) 5).2.1 rfl rfl,
   (put_persisted_td 1 false true true
      { header := { parentHash := 999, number := 4, difficulty := 1, hash := 200 },
        isHeader := false, hasBody := true, chainId := 1 }
      genesisOnly genesisOnly 0).2.2 (by decide) rfl⟩

/-! ## Claim C2 -/

/-- Claim C2: the put promotes the item to the new canonical head — sets
`_headHeader` to its hash and runs the `deleteStaleAssignments` plus
`rebuildCanonical` walks — exactly when the item is genesis
(`block.isGenesis()`, i.e. `number = 0`) or its computed total difficulty is
strictly greater than the current head total difficulty; otherwise
`_headHeader`, every `numberToHash` assignment and the iterator heads are
left unchanged, so an item whose TD merely equals the head's stays
non-canonical. -/
theorem put_canonical_head_decision (cid : Nat) (v vo po isG : Bool)
    (item : PutItem) (s s' : ChainState) (T ctdH ctdB : Nat)
    (hput : putBlockOrHeader cid v vo po isG item s = .ok s')
    (hT : blockTd s isG item.header = .ok T)
    (hc : currentTds s isG = .ok (ctdH, ctdB)) :
    ((item.header.number = 0 ∨ ctdH < T) → s'.headHeader = some item.header.hash) ∧
    (¬ (item.header.number = 0 ∨ ctdH < T) →
      s'.headHeader = s.headHeader ∧ s'.numberToHash = s.numberToHash ∧
      s'.heads = s.heads) := by
  obtain ⟨ctdH', ctdB', td', hc', hT', hr⟩ := put_ok_destruct hput
  rw [hc'] at hc
  rw [hT'] at hT
  simp only [Except.ok.injEq, Prod.mk.injEq] at hc hT
  obtain ⟨rfl, rfl⟩ := hc
  subst hT
  rw [rebuildInfoStep] at hr
  simp only [] at hr
  constructor
  · intro hwin
    rw [if_pos hwin] at hr
    obtain ⟨s6, hd, hrb⟩ := except_bind_ok hr
    have h5 := (deleteStale_frame hd).2.2.2.2.1
    have h6 := (rebuild_frame hrb).2.2.2.1
    rw [h6, h5]
    split_ifs <;> rfl
  · intro hlose
    rw [if_neg hlose] at hr
    split_ifs at hr <;> (cases hr; exact ⟨rfl, rfl, rfl⟩)

/-- Witness for C2 at a concrete input: putting block 1 (TD 12) on the
genesis-only store (head TD 5) takes the winning branch and sets
`_headHeader` to block 1's hash. -/
theorem put_canonical_head_decision_witness :
    ((cBlock1.number = 0 ∨ 5 < 12) →
      (runPut 1 false true true false
        { header := cBlock1, isHeader := false, hasBody := true, chainId := 1 }
        genesisOnly).headHeader = some cBlock1.hash) ∧
    (¬ (cBlock1.number = 0 ∨ 5 < 12) →
      (runPut 1 false true true false
        { header := cBlock1, isHeader := false, hasBody := true, chainId := 1 }
        genesisOnly).headHeader = genesisOnly.headHeader ∧
      (runPut 1 false true true false
        { header := cBlock1, isHeader := false, hasBody := true, chainId := 1 }
        genesisOnly).numberToHash = genesisOnly.numberToHash ∧
      (runPut 1 false true true false
        { header := cBlock1, isHeader := false, hasBody := true, chainId := 1 }
        genesisOnly).heads = genesisOnly.heads) :=
  put_canonical_head_decision 1 false true true false
    { header := cBlock1, isHeader := false, hasBody := true, chainId := 1 }
    genesisOnly
    (runPut 1 false true true false
      { header := cBlock1, isHeader := false, hasBody := true, chainId := 1 }
      genesisOnly) 12 5 5 rfl rfl rfl

/-! ## Claim C3 -/

/-- The canonical chain `chainABC` with one iterator head named `0` sitting
on block 2. -/
def cHeadsState : ChainState := { chainABC with heads := [((0, 0), 102)] }

/-- A higher-difficulty sibling of block 2 on top of block 1. -/
def cAlt2 : Header := { parentHash := 101, number := 2, difficulty := 50, hash := 112 }

/-- The put item carrying `cAlt2`. -/
def cAlt2Item : PutItem :=
  { header := cAlt2, isHeader := false, hasBody := true, chainId := 1 }

/-- Claim C3 counterexample: putting `cAlt2` (TD 62 > 21) reorganises the
chain; the walk flags the head named `0` (it sits on the stale hash 102 at
number 2) and stops at number 1 where hash 101 is already canonical.  The
source then sets the flagged head to 101 — the hash where the walk stopped —
and not to 112, the hash of the newly accepted top header, as the claim
states. -/
theorem rebuild_stop_heads_cex :
    (putBlockOrHeader 1 false true true false cAlt2Item cHeadsState).isOk = true ∧
    fget (0, 0) (runPut 1 false true true false cAlt2Item cHeadsState).heads =
      some 101 ∧
    ¬ fget (0, 0) (runPut 1 false true true false cAlt2Item cHeadsState).heads =
      some cAlt2.hash :=
  ⟨rfl, rfl, by decide⟩

/-- Claim C3 (amended): when `_rebuildCanonical` stops because the existing
canonical assignment at the current number already equals the walked hash,
every iterator head flagged stale during the walk, and `_headBlock` if it
was flagged stale, are set to the hash of the header at which the walk
stopped — the most recent ancestor that was already canonical — and not to
the hash of the newly accepted top header. -/
theorem rebuild_stop_resets_to_stop_hash (fuel : Nat) (hdr : Header)
    (staleHeads : List Nat) (flag : Bool) (s s' : ChainState)
    (hok : rebuildCanonical fuel hdr staleHeads flag s = .ok s')
    (hn : ¬ hdr.number = 0)
    (hstop : fget (hdr.number, 0) s.numberToHash = some hdr.hash) :
    s'.heads = (s.heads.map fun e =>
      (e.1, if staleHeads.contains e.1.1 then hdr.hash else e.2)) ∧
    s'.headBlock = (if flag then some hdr.hash else s.headBlock) ∧
    s'.numberToHash = s.numberToHash ∧ s'.hashToNumber = s.hashToNumber ∧
    s'.headHeader = s.headHeader ∧ s'.tds = s.tds ∧ s'.headers = s.headers := by
  cases fuel with
  | zero => cases hok
  | succ fuel =>
    rw [rebuildCanonical, if_neg hn, hstop] at hok
    simp only [if_true] at hok
    split_ifs at hok with hf
    · cases hok
      exact ⟨rfl, by simp [hf], rfl, rfl, rfl, rfl, rfl⟩
    · cases hok
      exact ⟨rfl, by simp [hf], rfl, rfl, rfl, rfl, rfl⟩

/-- The state the C3 stop case produces on the concrete fixture. -/
def cStopResult : ChainState :=
  { chainABC with heads := [((0, 0), 101)], headBlock := some 101 }

/-- Witness for the amended C3 at a concrete input: a stop at block 1 with
the head named `0` flagged and `_headBlock` flagged sets both to hash 101. -/
theorem rebuild_stop_resets_to_stop_hash_witness :
    cStopResult.heads = (cHeadsState.heads.map fun e =>
      (e.1, if [0].contains e.1.1 then cBlock1.hash else e.2)) ∧
    cStopResult.headBlock = (if true then some cBlock1.hash else cHeadsState.headBlock) ∧
    cStopResult.numberToHash = cHeadsState.numberToHash ∧
    cStopResult.hashToNumber = cHeadsState.hashToNumber ∧
    cStopResult.headHeader = cHeadsState.headHeader ∧
    cStopResult.tds = cHeadsState.tds ∧
    cStopResult.headers = cHeadsState.headers :=
  rebuild_stop_resets_to_stop_hash 3 cBlock1 [0] true cHeadsState cStopResult
    rfl (by decide) rfl

/-! ## Well-formed states -/

/-- Content-addressed hashing: within the set of headers in play, equal
hashes mean equal headers (the source derives `hash()` from the header
content). -/
def PoolConsistent (pool : List Header) : Prop :=
  ∀ a ∈ pool, ∀ b ∈ pool, a.hash = b.hash → a = b

instance (pool : List Header) : Decidable (PoolConsistent pool) := by
  unfold PoolConsistent
  infer_instance

/-- The property claimed by the head-consistency invariant:
`td(headHeader) ≥ td(h)` for every persisted header and
`td(headBlock) ≤ td(headHeader)`. -/
def headTdInvariant (s : ChainState) : Bool :=
  match s.headHeader, s.headBlock with
  | some hh, some hb =>
    match getTdByHash s hh, getTdByHash s hb with
    | some tH, some tB =>
      s.tds.all (fun e => decide (e.2 ≤ tH)) && decide (tB ≤ tH)
    | _, _ => false
  | _, _ => false

/-- The invariant a `Blockchain` state keeps between successful non-genesis
puts: sorted map representations, self-keyed headers drawn from the
content-addressed pool, the td recurrence, consistent lookup indexes, and
the head total-difficulty bounds. -/
structure WFChain (pool : List Header) (s : ChainState) : Prop where
  sortedHeaders : SortedP s.headers
  sortedBodies : SortedP s.bodies
  sortedTds : SortedP s.tds
  sortedHToN : SortedP s.hashToNumber
  sortedNToH : SortedP s.numberToHash
  selfKeyed : ∀ e ∈ s.headers, e.2.number = e.1.1 ∧ e.2.hash = e.1.2
  inPool : ∀ e ∈ s.headers, e.2 ∈ pool
  headersHaveTd : ∀ e ∈ s.headers, ∃ t, fget e.1 s.tds = some t
  tdRec : ∀ e ∈ s.tds, ∃ hdr, fget e.1 s.headers = some hdr ∧
    (e.1.1 = 0 → e.2 = hdr.difficulty) ∧
    (¬ e.1.1 = 0 → ∃ tp, fget (e.1.1 - 1, hdr.parentHash) s.tds = some tp ∧
      e.2 = tp + hdr.difficulty)
  hToNOk : ∀ e ∈ s.hashToNumber, e.1.2 = 0 ∧
    ∃ hdr0, fget (e.2, e.1.1) s.headers = some hdr0
  nToHOk : ∀ e ∈ s.numberToHash, e.1.2 = 0 ∧
    fget (e.2, 0) s.hashToNumber = some e.1.1
  headsTd : ∃ hh hb tH tB, s.headHeader = some hh ∧ s.headBlock = some hb ∧
    getTdByHash s hh = some tH ∧ getTdByHash s hb = some tB ∧ tB ≤ tH ∧
    ∀ e ∈ s.tds, e.2 ≤ tH

theorem wf_headTdInvariant {pool : List Header} {s : ChainState}
    (h : WFChain pool s) : headTdInvariant s = true := by
  obtain ⟨hh, hb, tH, tB, e1, e2, e3, e4, e5, e6⟩ := h.headsTd
  rw [headTdInvariant, e1, e2]
  simp only []
  rw [e3, e4]
  simp only [Bool.and_eq_true, List.all_eq_true, decide_eq_true_eq]
  exact ⟨fun e he => e6 e he, e5⟩

/-- Content-addressing pin: a stored header sharing the hash of a pool
header is that header, and sits at that header's number. -/
theorem stored_header_pin {pool : List Header} {s : ChainState} {n h : Nat}
    {hdr0 hdr1 : Header}
    (hpc : PoolConsistent pool)
    (hsk : ∀ e ∈ s.headers, e.2.number = e.1.1 ∧ e.2.hash = e.1.2)
    (hip : ∀ e ∈ s.headers, e.2 ∈ pool)
    (hmem : hdr1 ∈ pool)
    (hget : fget (n, h) s.headers = some hdr0)
    (hh : h = hdr1.hash) :
    hdr0 = hdr1 ∧ n = hdr1.number := by
  have he := mem_of_fget hget
  have h1 := hsk _ he
  have h2 : hdr0 ∈ pool := hip _ he
  have hh0 : hdr0.hash = h := h1.2
  have hn0 : hdr0.number = n := h1.1
  have heq : hdr0 = hdr1 := hpc _ h2 _ hmem (by rw [hh0, hh])
  exact ⟨heq, by rw [← hn0, heq]⟩

theorem fget_of_mem_sorted {β : Type} {e : Key × β} {l : List (Key × β)}
    (hs : SortedP l) (h : e ∈ l) : fget e.1 l = some e.2 := by
  induction l with
  | nil => cases h
  | cons a rest ih =>
    rcases List.pairwise_cons.mp hs with ⟨hhead, htail⟩
    rcases List.mem_cons.mp h with rfl | h
    · simp [fget]
    · have hlt := hhead _ h
      have hne : ¬ e.1 = a.1 := fun hc => keyLt_irrefl _ (hc ▸ hlt)
      simp only [fget, if_neg hne]
      exact ih htail h

theorem deleteStale_nToH_sublist {fuel number headHash : Nat} {s s' : ChainState}
    (h : deleteStaleAssignments fuel number headHash s = .ok s') :
    s'.numberToHash.Sublist s.numberToHash := by
  induction fuel generalizing number s with
  | zero => simp [deleteStaleAssignments] at h
  | succ fuel ih =>
    rw [deleteStaleAssignments] at h
    cases hg : fget (number, 0) s.numberToHash with
    | none => rw [hg] at h; cases h; exact List.Sublist.refl _
    | some hash =>
      rw [hg] at h
      simp only [] at h
      have hsub := ih h
      have hstep : (fdel (number, 0) s.numberToHash).Sublist s.numberToHash :=
        List.filter_sublist _
      split_ifs at hsub <;> exact hsub.trans hstep

theorem deleteStale_headBlock {fuel number headHash : Nat} {s s' : ChainState}
    (h : deleteStaleAssignments fuel number headHash s = .ok s') :
    s'.headBlock = s.headBlock ∨ s'.headBlock = some headHash := by
  induction fuel generalizing number s with
  | zero => simp [deleteStaleAssignments] at h
  | succ fuel ih =>
    rw [deleteStaleAssignments] at h
    cases hg : fget (number, 0) s.numberToHash with
    | none => rw [hg] at h; cases h; exact Or.inl rfl
    | some hash =>
      rw [hg] at h
      simp only [] at h
      rcases ih h with h2 | h2
      · rw [h2]
        split_ifs with hb
        · exact Or.inr rfl
        · exact Or.inl rfl
      · exact Or.inr h2

/-- `saveLookups` keeps the lookup indexes sorted and consistent: the new
pair points at the anchored walk header, and an overwritten `hashToNumber`
entry is value-preserving by content addressing. -/
theorem saveLookups_parts {pool : List Header} (hpc : PoolConsistent pool)
    {s : ChainState} {hdr : Header}
    (hsk : ∀ e ∈ s.headers, e.2.number = e.1.1 ∧ e.2.hash = e.1.2)
    (hip : ∀ e ∈ s.headers, e.2 ∈ pool)
    (hhn : ∀ e ∈ s.hashToNumber, e.1.2 = 0 ∧
      ∃ hdr0, fget (e.2, e.1.1) s.headers = some hdr0)
    (hnh : ∀ e ∈ s.numberToHash, e.1.2 = 0 ∧
      fget (e.2, 0) s.hashToNumber = some e.1.1)
    (hs1 : SortedP s.hashToNumber) (hs2 : SortedP s.numberToHash)
    (hanc : fget (hdr.number, hdr.hash) s.headers = some hdr) :
    SortedP (fset (hdr.hash, 0) hdr.number s.hashToNumber) ∧
    SortedP (fset (hdr.number, 0) hdr.hash s.numberToHash) ∧
    (∀ e ∈ fset (hdr.hash, 0) hdr.number s.hashToNumber,
      e.1.2 = 0 ∧ ∃ hdr0, fget (e.2, e.1.1) s.headers = some hdr0) ∧
    (∀ e ∈ fset (hdr.number, 0) hdr.hash s.numberToHash,
      e.1.2 = 0 ∧ fget (e.2, 0) (fset (hdr.hash, 0) hdr.number s.hashToNumber) =
        some e.1.1) := by
  have hmem : hdr ∈ pool := hip _ (mem_of_fget hanc)
  refine ⟨sortedP_fset _ _ hs1, sortedP_fset _ _ hs2, ?_, ?_⟩
  · intro e he
    rcases mem_fset he with rfl | he2
    · exact ⟨rfl, hdr, hanc⟩
    · exact hhn e he2
  · intro e he
    rcases mem_fset he with rfl | he2
    · exact ⟨rfl, fget_fset_self _ _ _⟩
    · refine ⟨(hnh e he2).1, ?_⟩
      by_cases hc : e.2 = hdr.hash
      · have hold := (hnh e he2).2
        rw [hc] at hold
        have hent := mem_of_fget hold
        obtain ⟨-, hdr0, hh0⟩ := hhn _ hent
        obtain ⟨-, hnum⟩ := stored_header_pin hpc hsk hip hmem hh0 rfl
        rw [hc, fget_fset_self]
        exact congrArg some hnum.symm
      · rw [fget_fset_ne _ _ (fun hk => hc (congrArg Prod.fst hk)), (hnh e he2).2]

/-- Walk lemma for `_rebuildCanonical` on a well-formed state: the walk
keeps the lookup indexes sorted and consistent, records the walked top
header's own lookup, only ever writes `hashToNumber` entries that point at
stored headers, and moves `_headBlock` only to a hash whose td is already
persisted; with no stale-`_headBlock` flag and no stale assignment equal to
`_headBlock` below the top, `_headBlock` is untouched. -/
theorem rebuild_walk {pool : List Header} (hpc : PoolConsistent pool) :
    ∀ (fuel : Nat) (hdr : Header) (st : List Nat) (fl : Bool) (s s' : ChainState),
    rebuildCanonical fuel hdr st fl s = .ok s' →
    (∀ e ∈ s.headers, e.2.number = e.1.1 ∧ e.2.hash = e.1.2) →
    (∀ e ∈ s.headers, e.2 ∈ pool) →
    (∀ e ∈ s.hashToNumber, e.1.2 = 0 ∧
      ∃ hdr0, fget (e.2, e.1.1) s.headers = some hdr0) →
    (∀ e ∈ s.numberToHash, e.1.2 = 0 ∧
      fget (e.2, 0) s.hashToNumber = some e.1.1) →
    (∀ e ∈ s.headers, ∃ t, fget e.1 s.tds = some t) →
    SortedP s.hashToNumber → SortedP s.numberToHash →
    fget (hdr.number, hdr.hash) s.headers = some hdr →
    ( SortedP s'.hashToNumber ∧ SortedP s'.numberToHash ∧
      (∀ e ∈ s'.hashToNumber, e.1.2 = 0 ∧
        ∃ hdr0, fget (e.2, e.1.1) s'.headers = some hdr0) ∧
      (∀ e ∈ s'.numberToHash, e.1.2 = 0 ∧
        fget (e.2, 0) s'.hashToNumber = some e.1.1) ∧
      fget (hdr.hash, 0) s'.hashToNumber = some hdr.number ∧
      (∀ k : Key, fget k s'.hashToNumber = fget k s.hashToNumber ∨
        ∃ n0 hdr0, fget k s'.hashToNumber = some n0 ∧
          fget (n0, k.1) s.headers = some hdr0) ∧
      (s'.headBlock = s.headBlock ∨
        ∃ b n1 t, s'.headBlock = some b ∧
          fget (b, 0) s'.hashToNumber = some n1 ∧ fget (n1, b) s.tds = some t) ∧
      (fl = false →
        (∀ nn sh, nn ≤ hdr.number → fget (nn, 0) s.numberToHash = some sh →
          s.headBlock = some sh → sh = hdr.hash ∧ nn = hdr.number) →
        s'.headBlock = s.headBlock) ) := by
  intro fuel
  induction fuel with
  | zero =>
    intro hdr st fl s s' hok
    simp [rebuildCanonical] at hok
  | succ fuel ih =>
    intro hdr st fl s s' hok hsk hip hhn hnh hht hso1 hso2 hanc
    have hmem : hdr ∈ pool := hip _ (mem_of_fget hanc)
    rw [rebuildCanonical] at hok
    by_cases h0 : hdr.number = 0
    · rw [if_pos h0] at hok
      cases hok
      obtain ⟨p1, p2, p3, p4⟩ := saveLookups_parts hpc hsk hip hhn hnh hso1 hso2 hanc
      rw [h0] at p1 p2 p3 p4
      refine ⟨p1, p2, p3, p4, ?_, ?_, Or.inl rfl, fun _ _ => rfl⟩
      · show fget (hdr.hash, 0) (fset (hdr.hash, 0) 0 s.hashToNumber) = some hdr.number
        rw [h0]
        exact fget_fset_self _ _ _
      · intro k
        by_cases hk : k = (hdr.hash, 0)
        · subst hk
          refine Or.inr ⟨0, hdr, ?_, ?_⟩
          · show fget (hdr.hash, 0) (fset (hdr.hash, 0) 0 s.hashToNumber) = some 0
            exact fget_fset_self _ _ _
          · show fget (0, hdr.hash) s.headers = some hdr
            rw [← h0]
            exact hanc
        · exact Or.inl (fget_fset_ne _ _ hk)
    · rw [if_neg h0] at hok
      cases hg : fget (hdr.number, 0) s.numberToHash with
      | some sh =>
        rw [hg] at hok
        simp only [] at hok
        by_cases hsh : sh = hdr.hash
        · -- stop case
          rw [if_pos hsh] at hok
          have hent := mem_of_fget hg
          have hR5 : fget (hdr.hash, 0) s.hashToNumber = some hdr.number := by
            rw [← hsh]
            exact (hnh _ hent).2
          obtain ⟨t0, ht0⟩ := hht _ (mem_of_fget hanc)
          split_ifs at hok with hfl
          · cases hok
            refine ⟨hso1, hso2, hhn, hnh, hR5, fun k => Or.inl rfl, ?_, ?_⟩
            · exact Or.inr ⟨hdr.hash, hdr.number, t0, rfl, hR5, ht0⟩
            · intro hfl0 _
              rw [hfl0] at hfl
              cases hfl
          · cases hok
            exact ⟨hso1, hso2, hhn, hnh, hR5, fun k => Or.inl rfl, Or.inl rfl,
              fun _ _ => rfl⟩
        · -- save and recurse, stale assignment present
          rw [if_neg hsh] at hok
          cases hp : fget (hdr.number - 1, hdr.parentHash) s.headers with
          | none => rw [hp] at hok; cases hok
          | some parent =>
            rw [hp] at hok
            obtain ⟨p1, p2, p3, p4⟩ :=
              saveLookups_parts hpc hsk hip hhn hnh hso1 hso2 hanc
            have hskp := hsk _ (mem_of_fget hp)
            have hnump : parent.number = hdr.number - 1 := hskp.1
            have hhashp : parent.hash = hdr.parentHash := hskp.2
            have hancp : fget (parent.number, parent.hash) s.headers = some parent := by
              rw [hnump, hhashp]; exact hp
            have hplt : parent.number < hdr.number := by
              rw [hnump]
              exact Nat.pred_lt h0
            obtain ⟨c1, c2, c3, c4, c5, c6, c7, c8⟩ :=
              ih parent _ _ _ s' hok hsk hip p3 p4 hht p1 p2 hancp
            simp only [saveLookups] at c6 c7 c8
            refine ⟨c1, c2, c3, c4, ?_, ?_, ?_, ?_⟩
            · rcases c6 (hdr.hash, 0) with h6 | ⟨n0, hdr0, h6, hh0⟩
              · rw [h6]; exact fget_fset_self _ _ _
              · obtain ⟨heq0, hn0⟩ := stored_header_pin hpc hsk hip hmem hh0 rfl
                rw [h6, hn0]
            · intro k
              rcases c6 k with h6 | ⟨n0, hdr0, h6, hh0⟩
              · by_cases hk : k = (hdr.hash, 0)
                · subst hk
                  rw [h6, fget_fset_self]
                  exact Or.inr ⟨hdr.number, hdr, rfl, hanc⟩
                · rw [h6, fget_fset_ne _ _ hk]
                  exact Or.inl rfl
              · exact Or.inr ⟨n0, hdr0, h6, hh0⟩
            · exact c7
            · intro hfl0 hyp
              have hnotB : ¬ s.headBlock = some sh := by
                intro hb
                exact hsh (hyp hdr.number sh (Nat.le_refl _) hg hb).1
              have hflag : (fl || decide (s.headBlock = some sh)) = false := by
                rw [hfl0]
                simp [hnotB]
              rw [hflag] at c8
              apply c8 rfl
              intro nn sh2 hle hget hb
              have hlt2 : nn < hdr.number := Nat.lt_of_le_of_lt (hnump ▸ hle) hplt
              have hne : ((nn : Nat), (0 : Nat)) ≠ (hdr.number, 0) := by
                intro hc
                exact Nat.ne_of_lt hlt2 (congrArg Prod.fst hc)
              rw [fget_fset_ne _ _ hne] at hget
              obtain ⟨-, hcon⟩ := hyp nn sh2 (Nat.le_of_lt hlt2) hget hb
              exact absurd hcon (Nat.ne_of_lt hlt2)
      | none =>
        rw [hg] at hok
        simp only [] at hok
        cases hp : fget (hdr.number - 1, hdr.parentHash) s.headers with
        | none => rw [hp] at hok; cases hok
        | some parent =>
          rw [hp] at hok
          obtain ⟨p1, p2, p3, p4⟩ :=
            saveLookups_parts hpc hsk hip hhn hnh hso1 hso2 hanc
          have hskp := hsk _ (mem_of_fget hp)
          have hnump : parent.number = hdr.number - 1 := hskp.1
          have hhashp : parent.hash = hdr.parentHash := hskp.2
          have hancp : fget (parent.number, parent.hash) s.headers = some parent := by
            rw [hnump, hhashp]; exact hp
          have hplt : parent.number < hdr.number := by
            rw [hnump]
            exact Nat.pred_lt h0
          obtain ⟨c1, c2, c3, c4, c5, c6, c7, c8⟩ :=
            ih parent _ _ _ s' hok hsk hip p3 p4 hht p1 p2 hancp
          simp only [saveLookups] at c6 c7 c8
          refine ⟨c1, c2, c3, c4, ?_, ?_, ?_, ?_⟩
          · rcases c6 (hdr.hash, 0) with h6 | ⟨n0, hdr0, h6, hh0⟩
            · rw [h6]; exact fget_fset_self _ _ _
            · obtain ⟨heq0, hn0⟩ := stored_header_pin hpc hsk hip hmem hh0 rfl
              rw [h6, hn0]
          · intro k
            rcases c6 k with h6 | ⟨n0, hdr0, h6, hh0⟩
            · by_cases hk : k = (hdr.hash, 0)
              · subst hk
                rw [h6, fget_fset_self]
                exact Or.inr ⟨hdr.number, hdr, rfl, hanc⟩
              · rw [h6, fget_fset_ne _ _ hk]
                exact Or.inl rfl
            · exact Or.inr ⟨n0, hdr0, h6, hh0⟩
          · exact c7
          · intro hfl0 hyp
            apply c8 hfl0
            intro nn sh2 hle hget hb
            have hlt2 : nn < hdr.number := Nat.lt_of_le_of_lt (hnump ▸ hle) hplt
            have hne : ((nn : Nat), (0 : Nat)) ≠ (hdr.number, 0) := by
              intro hc
              exact Nat.ne_of_lt hlt2 (congrArg Prod.fst hc)
            rw [fget_fset_ne _ _ hne] at hget
            obtain ⟨-, hcon⟩ := hyp nn sh2 (Nat.le_of_lt hlt2) hget hb
            exact absurd hcon (Nat.ne_of_lt hlt2)

theorem currentTds_ok_destruct {s : ChainState} {a b : Nat}
    (h : currentTds s false = .ok (a, b)) :
    ∃ hh hb, s.headHeader = some hh ∧ getTdByHash s hh = some a ∧
      s.headBlock = some hb ∧ getTdByHash s hb = some b := by
  rw [currentTds, if_neg (by simp)] at h
  cases h1 : s.headHeader with
  | none => rw [h1] at h; cases h
  | some hh =>
    rw [h1] at h
    simp only [] at h
    cases h2 : getTdByHash s hh with
    | none => rw [h2] at h; cases h
    | some ta =>
      rw [h2] at h
      simp only [] at h
      cases h3 : s.headBlock with
      | none => rw [h3] at h; cases h
      | some hb =>
        rw [h3] at h
        simp only [] at h
        cases h4 : getTdByHash s hb with
        | none => rw [h4] at h; cases h
        | some tb =>
          rw [h4] at h
          simp only [Except.ok.injEq, Prod.mk.injEq] at h
          exact ⟨hh, hb, rfl, by rw [h2, h.1], rfl, by rw [h4, h.2]⟩

theorem blockTd_ok_destruct {s : ChainState} {hdr : Header} {T : Nat}
    (h : blockTd s false hdr = .ok T) :
    ¬ hdr.number = 0 ∧ ∃ ptd, fget (hdr.number - 1, hdr.parentHash) s.tds = some ptd ∧
      T = ptd + hdr.difficulty := by
  rw [blockTd, if_neg (by simp)] at h
  by_cases h0 : hdr.number = 0
  · rw [if_pos h0] at h; cases h
  · rw [if_neg h0] at h
    cases hp : fget (hdr.number - 1, hdr.parentHash) s.tds with
    | none => rw [hp] at h; cases h
    | some ptd =>
      rw [hp] at h
      simp only [Except.ok.injEq] at h
      exact ⟨h0, ptd, rfl, h.symm⟩

/-- The staged td and header writes of `rebuildInfo` preserve the structural
state invariants; an overwrite is value-preserving by content addressing. -/
theorem staged_write_parts {pool : List Header} (hpc : PoolConsistent pool)
    {s : ChainState} {item : PutItem} {T ptd : Nat}
    (hwf : WFChain pool s) (hmem : item.header ∈ pool)
    (hn0 : ¬ item.header.number = 0)
    (hptd : fget (item.header.number - 1, item.header.parentHash) s.tds = some ptd)
    (hTval : T = ptd + item.header.difficulty) :
    SortedP (fset (item.header.number, item.header.hash) item.header s.headers) ∧
    SortedP (fset (item.header.number, item.header.hash) T s.tds) ∧
    (∀ e ∈ fset (item.header.number, item.header.hash) item.header s.headers,
      e.2.number = e.1.1 ∧ e.2.hash = e.1.2) ∧
    (∀ e ∈ fset (item.header.number, item.header.hash) item.header s.headers,
      e.2 ∈ pool) ∧
    (∀ e ∈ fset (item.header.number, item.header.hash) item.header s.headers,
      ∃ t, fget e.1 (fset (item.header.number, item.header.hash) T s.tds) = some t) ∧
    (∀ e ∈ fset (item.header.number, item.header.hash) T s.tds,
      ∃ hdr0, fget e.1 (fset (item.header.number, item.header.hash) item.header
          s.headers) = some hdr0 ∧
        (e.1.1 = 0 → e.2 = hdr0.difficulty) ∧
        (¬ e.1.1 = 0 → ∃ tp, fget (e.1.1 - 1, hdr0.parentHash)
            (fset (item.header.number, item.header.hash) T s.tds) = some tp ∧
          e.2 = tp + hdr0.difficulty)) ∧
    (∀ e ∈ s.hashToNumber, e.1.2 = 0 ∧
      ∃ hdr0, fget (e.2, e.1.1) (fset (item.header.number, item.header.hash)
        item.header s.headers) = some hdr0) ∧
    (∀ e ∈ fset (item.header.number, item.header.hash) T s.tds,
      e.2 ≤ ptd + item.header.difficulty ∨
        ∃ e0, e0 ∈ s.tds ∧ e.2 = e0.2) := by
  have hdr := item.header
  have hpin : ∀ t0, fget (item.header.number, item.header.hash) s.tds = some t0 →
      t0 = T := by
    intro t0 h0
    obtain ⟨hdr1, hh1, -, hrec⟩ := hwf.tdRec _ (mem_of_fget h0)
    obtain ⟨heq1, -⟩ := stored_header_pin hpc hwf.selfKeyed hwf.inPool hmem hh1 rfl
    obtain ⟨tp, htp, hval⟩ := hrec hn0
    rw [heq1] at htp hval
    rw [hptd] at htp
    cases htp
    rw [hTval]
    exact hval
  have hne_parent : ((item.header.number - 1 : Nat), item.header.parentHash) ≠
      (item.header.number, item.header.hash) := by
    intro hc
    have := congrArg Prod.fst hc
    simp only [] at this
    exact absurd this (Nat.ne_of_lt (Nat.pred_lt hn0))
  refine ⟨sortedP_fset _ _ hwf.sortedHeaders, sortedP_fset _ _ hwf.sortedTds,
    ?_, ?_, ?_, ?_, ?_, ?_⟩
  · intro e he
    rcases mem_fset he with rfl | he2
    · exact ⟨rfl, rfl⟩
    · exact hwf.selfKeyed e he2
  · intro e he
    rcases mem_fset he with rfl | he2
    · exact hmem
    · exact hwf.inPool e he2
  · intro e he
    by_cases hk : e.1 = (item.header.number, item.header.hash)
    · rw [hk, fget_fset_self]
      exact ⟨T, rfl⟩
    · rcases mem_fset he with rfl | he2
      · exact absurd rfl hk
      · obtain ⟨t, ht⟩ := hwf.headersHaveTd e he2
        exact ⟨t, by rw [fget_fset_ne _ _ hk]; exact ht⟩
  · intro e he
    by_cases hk : e.1 = (item.header.number, item.header.hash)
    · have he2 : e.2 = T := by
        have hg := fget_of_mem_sorted (sortedP_fset _ _ hwf.sortedTds) he
        rw [hk, fget_fset_self] at hg
        cases hg
        rfl
      refine ⟨item.header, by rw [hk, fget_fset_self], ?_, ?_⟩
      · intro hz
        rw [hk] at hz
        exact absurd hz hn0
      · intro _
        refine ⟨ptd, ?_, by rw [he2, hTval]⟩
        rw [hk]
        show fget (item.header.number - 1, item.header.parentHash) _ = some ptd
        rw [fget_fset_ne _ _ hne_parent]
        exact hptd
    · rcases mem_fset he with rfl | he2
      · exact absurd rfl hk
      · obtain ⟨hdr0, hh0, hz0, hr0⟩ := hwf.tdRec e he2
        refine ⟨hdr0, by rw [fget_fset_ne _ _ hk]; exact hh0, hz0, ?_⟩
        intro hnz
        obtain ⟨tp, htp, hval⟩ := hr0 hnz
        by_cases hk2 : ((e.1.1 - 1 : Nat), hdr0.parentHash) =
            (item.header.number, item.header.hash)
        · have htpT : tp = T := hpin tp (by rw [← hk2]; exact htp)
          refine ⟨T, ?_, by rw [hval, htpT]⟩
          rw [hk2, fget_fset_self]
        · exact ⟨tp, by rw [fget_fset_ne _ _ hk2]; exact htp, hval⟩
  · intro e he
    obtain ⟨hz, hdr0, hh0⟩ := hwf.hToNOk e he
    refine ⟨hz, ?_⟩
    by_cases hk : ((e.2 : Nat), e.1.1) = (item.header.number, item.header.hash)
    · exact ⟨item.header, by rw [hk, fget_fset_self]⟩
    · exact ⟨hdr0, by rw [fget_fset_ne _ _ hk]; exact hh0⟩
  · intro e he
    by_cases hk : e.1 = (item.header.number, item.header.hash)
    · have he2 : e.2 = T := by
        have hg := fget_of_mem_sorted (sortedP_fset _ _ hwf.sortedTds) he
        rw [hk, fget_fset_self] at hg
        cases hg
        rfl
      exact Or.inl (by rw [he2, hTval])
    · rcases mem_fset he with rfl | he2
      · exact absurd rfl hk
      · exact Or.inr ⟨e, he2, rfl⟩

theorem getTdByHash_eq {s : ChainState} {h n t : Nat}
    (h1 : fget (h, 0) s.hashToNumber = some n) (h2 : fget (n, h) s.tds = some t) :
    getTdByHash s h = some t := by
  rw [getTdByHash, h1]
  exact h2

/-- Preservation of the state invariant along the winning branch of
`rebuildInfo` (the item becomes the canonical head and both walks run). -/
theorem put_wins_WF {pool : List Header} (hpc : PoolConsistent pool)
    {item : PutItem} {s S5 s6 s' : ChainState}
    {T ptd ctdH ctdB B fuel : Nat}
    (hwf : WFChain pool s) (hmem : item.header ∈ pool)
    (hn0 : ¬ item.header.number = 0)
    (hptd : fget (item.header.number - 1, item.header.parentHash) s.tds = some ptd)
    (hTval : T = ptd + item.header.difficulty)
    (hbound : ∀ e ∈ s.tds, e.2 ≤ ctdH)
    (hB : s.headBlock = some B) (hctdB : getTdByHash s B = some ctdB)
    (hwin : ctdH < T)
    (e1 : S5.headers = fset (item.header.number, item.header.hash) item.header s.headers)
    (e2 : S5.tds = fset (item.header.number, item.header.hash) T s.tds)
    (e3 : S5.hashToNumber = s.hashToNumber)
    (e4 : S5.numberToHash = s.numberToHash)
    (e5 : S5.headHeader = some item.header.hash)
    (e6 : S5.headBlock = some item.header.hash ∨ S5.headBlock = s.headBlock)
    (e7 : SortedP S5.bodies)
    (hd : deleteStaleAssignments fuel (item.header.number + 1) item.header.hash S5 =
      .ok s6)
    (hrb : rebuildCanonical fuel item.header [] false s6 = .ok s') :
    WFChain pool s' := by
  obtain ⟨w1, w2, w3, w4, w5, w6, w7, w8⟩ :=
    staged_write_parts hpc hwf hmem hn0 hptd hTval
  obtain ⟨d1, d2, d3, d4, d5, d6⟩ := deleteStale_frame hd
  have hsub : s6.numberToHash.Sublist s.numberToHash := by
    rw [← e4]
    exact deleteStale_nToH_sublist hd
  have hhb6 : s6.headBlock = some item.header.hash ∨ s6.headBlock = s.headBlock := by
    rcases deleteStale_headBlock hd with h | h
    · rcases e6 with h2 | h2
      · exact Or.inl (h.trans h2)
      · exact Or.inr (h.trans h2)
    · exact Or.inl h
  have g1 : s6.headers = fset (item.header.number, item.header.hash) item.header
      s.headers := d1.trans e1
  have g2 : s6.bodies = S5.bodies := d2
  have g3 : s6.tds = fset (item.header.number, item.header.hash) T s.tds :=
    d3.trans e2
  have g4 : s6.hashToNumber = s.hashToNumber := d4.trans e3
  have g5 : s6.headHeader = some item.header.hash := d5.trans e5
  have hsk6 : ∀ e ∈ s6.headers, e.2.number = e.1.1 ∧ e.2.hash = e.1.2 := by
    rw [g1]; exact w3
  have hip6 : ∀ e ∈ s6.headers, e.2 ∈ pool := by rw [g1]; exact w4
  have hht6 : ∀ e ∈ s6.headers, ∃ t, fget e.1 s6.tds = some t := by
    rw [g1, g3]; exact w5
  have hhn6 : ∀ e ∈ s6.hashToNumber, e.1.2 = 0 ∧
      ∃ hdr0, fget (e.2, e.1.1) s6.headers = some hdr0 := by
    rw [g4, g1]; exact w7
  have hnh6 : ∀ e ∈ s6.numberToHash, e.1.2 = 0 ∧
      fget (e.2, 0) s6.hashToNumber = some e.1.1 := by
    intro e he
    have := hwf.nToHOk e (hsub.subset he)
    rw [g4]
    exact this
  have hso16 : SortedP s6.hashToNumber := by rw [g4]; exact hwf.sortedHToN
  have hso26 : SortedP s6.numberToHash :=
    List.Pairwise.sublist hsub hwf.sortedNToH
  have hanc6 : fget (item.header.number, item.header.hash) s6.headers =
      some item.header := by
    rw [g1]; exact fget_fset_self _ _ _
  obtain ⟨c1, c2, c3, c4, c5, c6, c7, c8⟩ :=
    rebuild_walk hpc fuel item.header [] false s6 s' hrb hsk6 hip6 hhn6 hnh6
      hht6 hso16 hso26 hanc6
  obtain ⟨r1, r2, r3, r4, r5⟩ := rebuild_frame hrb
  have hth' : getTdByHash s' item.header.hash = some T := by
    refine getTdByHash_eq c5 ?_
    rw [r3, g3]
    exact fget_fset_self _ _ _
  have hboundT : ∀ e ∈ s'.tds, e.2 ≤ T := by
    intro e he
    rw [r3, g3] at he
    rcases w8 e he with h | ⟨e0, he0, hv⟩
    · rw [← hTval] at h
      exact h
    · rw [hv]
      exact Nat.le_of_lt (Nat.lt_of_le_of_lt (hbound e0 he0) hwin)
  refine ⟨?_, ?_, ?_, c1, c2, ?_, ?_, ?_, ?_, c3, c4, ?_⟩
  · rw [r1, g1]; exact w1
  · rw [r2, g2]; exact e7
  · rw [r3, g3]; exact w2
  · rw [r1, g1]; exact w3
  · rw [r1, g1]; exact w4
  · rw [r1, g1, r3, g3]; exact w5
  · intro e he
    rw [r3, g3] at he
    obtain ⟨hdr0, hh0, hz0, hr0⟩ := w6 e he
    refine ⟨hdr0, ?_, hz0, ?_⟩
    · rw [r1, g1]; exact hh0
    · intro hnz
      obtain ⟨tp, htp, hval⟩ := hr0 hnz
      refine ⟨tp, ?_, hval⟩
      rw [r3, g3]
      exact htp
  · -- headsTd
    have hHH : s'.headHeader = some item.header.hash := r4.trans g5
    rcases c7 with hc7 | ⟨b, n1, t, hb', h1, h2⟩
    · rcases hhb6 with h6 | h6
      · refine ⟨item.header.hash, item.header.hash, T, T, hHH,
          hc7.trans h6, hth', hth', Nat.le_refl _, hboundT⟩
      · -- headBlock still the old B
        have hb' : s'.headBlock = some B := by rw [hc7, h6, hB]
        rw [getTdByHash] at hctdB
        cases hgB : fget (B, 0) s.hashToNumber with
        | none => rw [hgB] at hctdB; cases hctdB
        | some nB =>
          rw [hgB] at hctdB
          rcases c6 (B, 0) with h66 | ⟨n0, hdr0, h66, hh0⟩
          · rw [g4] at h66
            rw [hgB] at h66
            by_cases hkB : ((nB : Nat), B) = (item.header.number, item.header.hash)
            · have htB' : getTdByHash s' B = some T := by
                refine getTdByHash_eq h66 ?_
                rw [r3, g3, hkB]
                exact fget_fset_self _ _ _
              exact ⟨item.header.hash, B, T, T, hHH, hb', hth', htB',
                Nat.le_refl _, hboundT⟩
            · have htB' : getTdByHash s' B = some ctdB := by
                refine getTdByHash_eq h66 ?_
                rw [r3, g3, fget_fset_ne _ _ hkB]
                exact hctdB
              refine ⟨item.header.hash, B, T, ctdB, hHH, hb', hth', htB', ?_,
                hboundT⟩
              exact Nat.le_of_lt (Nat.lt_of_le_of_lt
                (hbound _ (mem_of_fget hctdB)) hwin)
          · -- rewritten lookup, points at a stored header with a stored td
            rw [g1] at hh0
            have hht0 := w5 _ (mem_of_fget hh0)
            obtain ⟨t1, ht1⟩ := hht0
            have htB' : getTdByHash s' B = some t1 := by
              refine getTdByHash_eq h66 ?_
              rw [r3, g3]
              exact ht1
            refine ⟨item.header.hash, B, T, t1, hHH, hb', hth', htB', ?_, hboundT⟩
            exact hboundT _ (by rw [r3, g3]; exact mem_of_fget ht1)
    · -- headBlock moved by the stop case of the walk
      have htB' : getTdByHash s' b = some t := by
        refine getTdByHash_eq h1 ?_
        rw [r3]
        exact h2
      refine ⟨item.header.hash, b, T, t, hHH, hb', hth', htB', ?_, hboundT⟩
      exact hboundT _ (by rw [r3]; exact mem_of_fget h2)

/-- Preservation of the state invariant along the non-winning branch of
`rebuildInfo` (only the `hashToNumber` lookup and possibly `_headBlock`
advance). -/
theorem put_lose_WF {pool : List Header} (hpc : PoolConsistent pool)
    {item : PutItem} {s s' : ChainState} {T ptd ctdH ctdB H B : Nat}
    (hwf : WFChain pool s) (hmem : item.header ∈ pool)
    (hn0 : ¬ item.header.number = 0)
    (hptd : fget (item.header.number - 1, item.header.parentHash) s.tds = some ptd)
    (hTval : T = ptd + item.header.difficulty)
    (hH : s.headHeader = some H) (hctdH : getTdByHash s H = some ctdH)
    (hbound : ∀ e ∈ s.tds, e.2 ≤ ctdH)
    (hB : s.headBlock = some B) (hctdB : getTdByHash s B = some ctdB)
    (hnw : ¬ ctdH < T)
    (f1 : s'.headers = fset (item.header.number, item.header.hash) item.header s.headers)
    (f2 : s'.tds = fset (item.header.number, item.header.hash) T s.tds)
    (f3 : s'.hashToNumber = fset (item.header.hash, 0) item.header.number
      s.hashToNumber)
    (f4 : s'.numberToHash = s.numberToHash)
    (f5 : s'.headHeader = s.headHeader)
    (f6 : s'.headBlock = some item.header.hash ∨ s'.headBlock = s.headBlock)
    (f7 : SortedP s'.bodies) : WFChain pool s' := by
  obtain ⟨w1, w2, w3, w4, w5, w6, w7, w8⟩ :=
    staged_write_parts hpc hwf hmem hn0 hptd hTval
  have hTle : T ≤ ctdH := Nat.le_of_not_lt hnw
  have hpinN : ∀ n0, fget (item.header.hash, 0) s.hashToNumber = some n0 →
      n0 = item.header.number := by
    intro n0 h0
    obtain ⟨-, hdr0, hh0⟩ := hwf.hToNOk _ (mem_of_fget h0)
    exact (stored_header_pin hpc hwf.selfKeyed hwf.inPool hmem hh0 rfl).2
  have hpinT : ∀ t0, fget (item.header.number, item.header.hash) s.tds = some t0 →
      t0 = T := by
    intro t0 h0
    obtain ⟨hdr1, hh1, -, hrec⟩ := hwf.tdRec _ (mem_of_fget h0)
    obtain ⟨heq1, -⟩ := stored_header_pin hpc hwf.selfKeyed hwf.inPool hmem hh1 rfl
    obtain ⟨tp, htp, hval⟩ := hrec hn0
    rw [heq1] at htp hval
    rw [hptd] at htp
    cases htp
    rw [hTval]
    exact hval
  have hboundC : ∀ e ∈ s'.tds, e.2 ≤ ctdH := by
    intro e he
    rw [f2] at he
    rcases w8 e he with h | ⟨e0, he0, hv⟩
    · rw [← hTval] at h
      exact h.trans hTle
    · rw [hv]
      exact hbound e0 he0
  have hselfT : getTdByHash s' item.header.hash = some T := by
    refine @getTdByHash_eq s' item.header.hash item.header.number T ?_ ?_
    · rw [f3]
      exact fget_fset_self _ _ _
    · rw [f2]
      exact fget_fset_self _ _ _
  have htHv : getTdByHash s' H = some ctdH := by
    rw [getTdByHash] at hctdH
    cases hgH : fget (H, 0) s.hashToNumber with
    | none => rw [hgH] at hctdH; cases hctdH
    | some nH =>
      rw [hgH] at hctdH
      by_cases hHh : H = item.header.hash
      · have hnH : nH = item.header.number := hpinN nH (by rw [← hHh]; exact hgH)
        have hTctd : ctdH = T := by
          apply hpinT
          rw [← hnH, ← hHh]
          exact hctdH
        rw [hHh, hTctd]
        exact hselfT
      · refine @getTdByHash_eq s' H nH ctdH ?_ ?_
        · rw [f3, fget_fset_ne _ _ (fun hc => hHh (congrArg Prod.fst hc))]
          exact hgH
        · rw [f2, fget_fset_ne _ _ (fun hc => hHh (congrArg Prod.snd hc))]
          exact hctdH
  have htBv : ∃ b tb, s'.headBlock = some b ∧ getTdByHash s' b = some tb ∧
      tb ≤ ctdH := by
    rcases f6 with h6 | h6
    · exact ⟨item.header.hash, T, h6, hselfT, hTle⟩
    · rw [getTdByHash] at hctdB
      cases hgB : fget (B, 0) s.hashToNumber with
      | none => rw [hgB] at hctdB; cases hctdB
      | some nB =>
        rw [hgB] at hctdB
        by_cases hBh : B = item.header.hash
        · exact ⟨B, T, by rw [h6, hB], by rw [hBh]; exact hselfT, hTle⟩
        · refine ⟨B, ctdB, by rw [h6, hB], @getTdByHash_eq s' B nB ctdB ?_ ?_, ?_⟩
          · rw [f3, fget_fset_ne _ _ (fun hc => hBh (congrArg Prod.fst hc))]
            exact hgB
          · rw [f2, fget_fset_ne _ _ (fun hc => hBh (congrArg Prod.snd hc))]
            exact hctdB
          · exact hbound _ (mem_of_fget hctdB)
  obtain ⟨b, tb, hb1, hb2, hb3⟩ := htBv
  refine ⟨?_, f7, ?_, ?_, ?_, ?_, ?_, ?_, ?_, ?_, ?_, ?_⟩
  · rw [f1]; exact w1
  · rw [f2]; exact w2
  · rw [f3]; exact sortedP_fset _ _ hwf.sortedHToN
  · rw [f4]; exact hwf.sortedNToH
  · rw [f1]; exact w3
  · rw [f1]; exact w4
  · rw [f1, f2]; exact w5
  · intro e he
    rw [f2] at he
    obtain ⟨hdr0, hh0, hz0, hr0⟩ := w6 e he
    refine ⟨hdr0, by rw [f1]; exact hh0, hz0, ?_⟩
    intro hnz
    obtain ⟨tp, htp, hval⟩ := hr0 hnz
    exact ⟨tp, by rw [f2]; exact htp, hval⟩
  · intro e he
    rw [f3] at he
    rcases mem_fset he with rfl | he2
    · refine ⟨rfl, item.header, ?_⟩
      rw [f1]
      exact fget_fset_self _ _ _
    · obtain ⟨hz, hdr0, hh0⟩ := w7 e he2
      exact ⟨hz, hdr0, by rw [f1]; exact hh0⟩
  · intro e he
    rw [f4] at he
    obtain ⟨hz, hv⟩ := hwf.nToHOk e he
    refine ⟨hz, ?_⟩
    by_cases hc : e.2 = item.header.hash
    · have : e.1.1 = item.header.number := hpinN e.1.1 (by rw [← hc]; exact hv)
      rw [f3, hc, fget_fset_self, this]
    · rw [f3, fget_fset_ne _ _ (fun hk => hc (congrArg Prod.fst hk)), hv]
  · exact ⟨H, b, ctdH, tb, by rw [f5, hH], hb1, htHv, hb2, hb3, hboundC⟩

/-- A successful non-genesis put preserves the state invariant. -/
theorem put_preserves_WF {pool : List Header} {cid : Nat} {v vo po : Bool}
    {item : PutItem} {s s' : ChainState}
    (hpc : PoolConsistent pool) (hmem : item.header ∈ pool)
    (hwf : WFChain pool s)
    (hput : putBlockOrHeader cid v vo po false item s = .ok s') :
    WFChain pool s' := by
  obtain ⟨ctdH, ctdB, T, hc, hb, hr⟩ := put_ok_destruct hput
  obtain ⟨H, B, hH, hctdH, hB, hctdB⟩ := currentTds_ok_destruct hc
  obtain ⟨hn0, ptd, hptd, hTval⟩ := blockTd_ok_destruct hb
  obtain ⟨H2, B2, tH, tB, hH2, hB2, htH2, htB2, hle2, hbound2⟩ := hwf.headsTd
  have hTH : tH = ctdH := by
    have h1 : H2 = H := Option.some.inj (hH2.symm.trans hH)
    rw [h1] at htH2
    exact Option.some.inj (htH2.symm.trans hctdH)
  have hbound' : ∀ e ∈ s.tds, e.2 ≤ ctdH := by
    intro e he
    rw [← hTH]
    exact hbound2 e he
  rw [rebuildInfoStep] at hr
  simp only [] at hr
  by_cases hwin : item.header.number = 0 ∨ ctdH < T
  · rw [if_pos hwin] at hr
    have hwin2 : ctdH < T := hwin.resolve_left hn0
    obtain ⟨s6, hd, hrb⟩ := except_bind_ok hr
    refine put_wins_WF hpc hwf hmem hn0 hptd hTval hbound' hB hctdB hwin2
      ?_ ?_ ?_ ?_ ?_ ?_ ?_ hd hrb
    · split_ifs <;> rfl
    · split_ifs <;> rfl
    · split_ifs <;> rfl
    · split_ifs <;> rfl
    · split_ifs <;> rfl
    · split_ifs <;> first | exact Or.inl rfl | exact Or.inr rfl
    · split_ifs <;>
        first
          | exact sortedP_fset _ _ hwf.sortedBodies
          | exact hwf.sortedBodies
  · rw [if_neg hwin] at hr
    have hnw : ¬ ctdH < T := fun hlt => hwin (Or.inr hlt)
    split_ifs at hr <;>
      (cases hr
       refine put_lose_WF hpc hwf hmem hn0 hptd hTval hH hctdH hbound' hB hctdB hnw
         rfl rfl rfl rfl rfl ?_ ?_ <;>
         first
           | exact Or.inl rfl
           | exact Or.inr rfl
           | exact sortedP_fset _ _ hwf.sortedBodies
           | exact hwf.sortedBodies)

/-- `_init` on an empty store establishes the state invariant. -/
theorem init_WF {pool : List Header} {cid : Nat} {v vo po : Bool} {g : Header}
    {s0 : ChainState}
    (hmem : g ∈ pool) (hg0 : g.number = 0)
    (hinit : initState cid v vo po g = .ok s0) :
    WFChain pool s0 := by
  obtain ⟨gp, gn, gd, gh⟩ := g
  have hg0' : gn = 0 := hg0
  subst hg0'
  rw [initState, putBlockOrHeader] at hinit
  rw [if_neg (by simp)] at hinit
  rw [if_neg (by simp)] at hinit
  by_cases h3 : v = true ∧ vo = false
  · rw [if_pos h3] at hinit
    cases hinit
  · rw [if_neg h3] at hinit
    by_cases h4 : v = true ∧ po = false
    · rw [if_pos h4] at hinit
      cases hinit
    · rw [if_neg h4] at hinit
      have hs0 : s0 = ChainState.mk
          [((0, gh), Header.mk gp 0 gd gh)]
          [((0, gh), 0)]
          [((0, gh), gd)]
          [((gh, 0), 0)]
          [((0, 0), gh)]
          []
          (some gh) (some gh) (some gh) := by
        cases hinit
        rfl
      subst hs0
      refine ⟨?_, ?_, ?_, ?_, ?_, ?_, ?_, ?_, ?_, ?_, ?_, ?_⟩
      · simp [SortedP]
      · simp [SortedP]
      · simp [SortedP]
      · simp [SortedP]
      · simp [SortedP]
      · intro e he
        rcases List.mem_singleton.mp he with rfl
        exact ⟨rfl, rfl⟩
      · intro e he
        rcases List.mem_singleton.mp he with rfl
        exact hmem
      · intro e he
        rcases List.mem_singleton.mp he with rfl
        exact ⟨gd, by simp [fget]⟩
      · intro e he
        rcases List.mem_singleton.mp he with rfl
        exact ⟨Header.mk gp 0 gd gh,
          by simp [fget], fun _ => rfl, fun hnz => absurd rfl hnz⟩
      · intro e he
        rcases List.mem_singleton.mp he with rfl
        exact ⟨rfl, Header.mk gp 0 gd gh, by simp [fget]⟩
      · intro e he
        rcases List.mem_singleton.mp he with rfl
        exact ⟨rfl, by simp [fget]⟩
      · refine ⟨gh, gh, gd, gd, rfl, rfl, ?_, ?_, Nat.le_refl _, ?_⟩
        · simp [getTdByHash, fget]
        · simp [getTdByHash, fget]
        · intro e he
          rcases List.mem_singleton.mp he with rfl
          exact Nat.le_refl _

/-! ## Claim C5 -/

/-- The state after the two puts of the C5 counterexample: block 1 is
persisted with td 12, yet the genesis re-put has moved both heads back to
the genesis hash with td 5. -/
def cexFinal : ChainState :=
  { headers := [((0, 100), cGenesis), ((1, 101), cBlock1)],
    bodies := [((0, 100), 0), ((1, 101), 0)],
    tds := [((0, 100), 5), ((1, 101), 12)],
    hashToNumber := [((100, 0), 0), ((101, 0), 1)],
    numberToHash := [((0, 0), 100)],
    heads := [],
    headHeader := some 100, headBlock := some 100, genesis := some 100 }

/-- Claim C5 counterexample: from a fresh store, successfully put block 1
and then re-put the genesis (`putGenesis` runs with the `isGenesis` flag, so
its current TDs are taken as zero and it wins the canonical decision).  The
final state persists td 12 for block 1 while `td(headHeader) = 5`, so the
claimed invariant is false after this sequence of successful puts. -/
theorem head_td_bound_genesis_reput_cex :
    initState 1 true true true cGenesis = .ok genesisOnly ∧
    runPuts 1
      [PutCall.mk true true true false (PutItem.mk cBlock1 false true 1),
       PutCall.mk true true true true (PutItem.mk cGenesis false false 1)]
      genesisOnly = .ok cexFinal ∧
    headTdInvariant cexFinal = false :=
  ⟨rfl, rfl, rfl⟩

/-- Claim C5 (amended): after any sequence of successful puts from a fresh
store in which no put after initialisation carries the `isGenesis` flag
(and hashing is content-addressed, i.e. the headers in play are pairwise
hash-consistent), `td(headHeader)` is at least the td of every persisted
header and `td(headBlock) ≤ td(headHeader)`. -/
theorem head_td_bound_after_puts (cid : Nat) (v vo po : Bool) (g : Header)
    (calls : List PutCall) (s0 s : ChainState)
    (hg0 : g.number = 0)
    (hpool : PoolConsistent (g :: calls.map fun c => c.item.header))
    (hng : (calls.all fun c => !c.isGenesis) = true)
    (hinit : initState cid v vo po g = .ok s0)
    (hrun : runPuts cid calls s0 = .ok s) :
    headTdInvariant s = true := by
  have hwf0 : WFChain (g :: calls.map fun c => c.item.header) s0 :=
    init_WF (List.mem_cons_self _ _) hg0 hinit
  suffices h : ∀ (cs : List PutCall) (t t' : ChainState) (pool : List Header),
      PoolConsistent pool → (∀ c ∈ cs, c.item.header ∈ pool) →
      (∀ c ∈ cs, c.isGenesis = false) → WFChain pool t →
      runPuts cid cs t = .ok t' → WFChain pool t' by
    refine wf_headTdInvariant (h calls s0 s _ hpool ?_ ?_ hwf0 hrun)
    · intro c hc
      exact List.mem_cons_of_mem _ (List.mem_map_of_mem _ hc)
    · intro c hc
      rw [List.all_eq_true] at hng
      have := hng c hc
      simpa using this
  intro cs
  induction cs with
  | nil =>
    intro t t' pool hpc hmem hng2 hwf hrun2
    rw [runPuts] at hrun2
    cases hrun2
    exact hwf
  | cons c rest ih =>
    intro t t' pool hpc hmem hng2 hwf hrun2
    rw [runPuts] at hrun2
    cases hp : putBlockOrHeader cid c.validate c.validOk c.powOk c.isGenesis
        c.item t with
    | error e => rw [hp] at hrun2; cases hrun2
    | ok t1 =>
      rw [hp] at hrun2
      simp only [] at hrun2
      have hgen := hng2 c (List.mem_cons_self _ _)
      rw [hgen] at hp
      have hwf1 := put_preserves_WF hpc (hmem c (List.mem_cons_self _ _)) hwf hp
      exact ih t1 t' pool hpc (fun c2 hc2 => hmem c2 (List.mem_cons_of_mem _ hc2))
        (fun c2 hc2 => hng2 c2 (List.mem_cons_of_mem _ hc2)) hwf1 hrun2

/-- The state after putting block 1 on the fresh store. -/
def chainAB : ChainState :=
  { headers := [((0, 100), cGenesis), ((1, 101), cBlock1)],
    bodies := [((0, 100), 0), ((1, 101), 0)],
    tds := [((0, 100), 5), ((1, 101), 12)],
    hashToNumber := [((100, 0), 0), ((101, 0), 1)],
    numberToHash := [((0, 0), 100), ((1, 0), 101)],
    heads := [],
    headHeader := some 101, headBlock := some 101, genesis := some 100 }

/-- Witness for the amended C5 at a concrete input: init plus one put of
block 1 yields a state satisfying the head-td bound. -/
theorem head_td_bound_after_puts_witness : headTdInvariant chainAB = true :=
  head_td_bound_after_puts 1 true true true cGenesis
    [PutCall.mk true true true false (PutItem.mk cBlock1 false true 1)]
    genesisOnly chainAB rfl (by decide) rfl rfl rfl

/-! ## Claim C8 machinery -/

theorem chainState_ext {a b : ChainState}
    (h1 : a.headers = b.headers) (h2 : a.bodies = b.bodies) (h3 : a.tds = b.tds)
    (h4 : a.hashToNumber = b.hashToNumber) (h5 : a.numberToHash = b.numberToHash)
    (h6 : a.heads = b.heads) (h7 : a.headHeader = b.headHeader)
    (h8 : a.headBlock = b.headBlock) (h9 : a.genesis = b.genesis) : a = b := by
  cases a
  cases b
  simp only [] at h1 h2 h3 h4 h5 h6 h7 h8 h9
  rw [h1, h2, h3, h4, h5, h6, h7, h8, h9]

theorem put_ok_guards {cid : Nat} {v vo po isG : Bool} {item : PutItem}
    {s s' : ChainState}
    (h : putBlockOrHeader cid v vo po isG item s = .ok s') :
    item.chainId = cid ∧
    ¬ (v = true ∧ isG = false ∧ item.header.number = 0) ∧
    ¬ (v = true ∧ vo = false) ∧ ¬ (v = true ∧ po = false) := by
  rw [putBlockOrHeader] at h
  split_ifs at h with h1 h2 h3 h4
  exact ⟨h1, h2, h3, h4⟩

theorem put_build {cid : Nat} {v vo po isG : Bool} {item : PutItem}
    {s : ChainState} {ctdH ctdB T : Nat} {r : Except Err ChainState}
    (g1 : item.chainId = cid)
    (g2 : ¬ (v = true ∧ isG = false ∧ item.header.number = 0))
    (g3 : ¬ (v = true ∧ vo = false)) (g4 : ¬ (v = true ∧ po = false))
    (hc : currentTds s isG = .ok (ctdH, ctdB))
    (hb : blockTd s isG item.header = .ok T)
    (hr : rebuildInfoStep item isG T ctdH ctdB s = r) :
    putBlockOrHeader cid v vo po isG item s = r := by
  rw [putBlockOrHeader, if_neg (not_not_intro g1), if_neg g2, if_neg g3,
    if_neg g4, hc]
  simp only []
  rw [hb]
  simp only []
  exact hr

theorem currentTds_build {s : ChainState} {hh hb ta tb : Nat}
    (h1 : s.headHeader = some hh) (h2 : getTdByHash s hh = some ta)
    (h3 : s.headBlock = some hb) (h4 : getTdByHash s hb = some tb) :
    currentTds s false = .ok (ta, tb) := by
  rw [currentTds, if_neg (by simp), h1]
  simp only []
  rw [h2]
  simp only []
  rw [h3]
  simp only []
  rw [h4]

theorem blockTd_build {s : ChainState} {hdr : Header} {ptd : Nat}
    (hn0 : ¬ hdr.number = 0)
    (hp : fget (hdr.number - 1, hdr.parentHash) s.tds = some ptd) :
    blockTd s false hdr = .ok (ptd + hdr.difficulty) := by
  rw [blockTd, if_neg (by simp), if_neg hn0, hp]

/-- After a winning put of a full block (the item became the canonical head
and both walks ran), re-running the put pipeline on the result is a no-op:
both head pointers resolve to the freshly written td, the canonical decision
fails, and the else branch rewrites identical key/value pairs. -/
theorem second_put_after_wins {pool : List Header} (hpc : PoolConsistent pool)
    {b : PutItem} {s S5 s6 s1 : ChainState} {T ptd fuel cid : Nat}
    {v vo po : Bool}
    (hwf : WFChain pool s) (hmem : b.header ∈ pool)
    (hbk : b.isHeader = false)
    (hn0 : ¬ b.header.number = 0)
    (hptd : fget (b.header.number - 1, b.header.parentHash) s.tds = some ptd)
    (hTval : T = ptd + b.header.difficulty)
    (g1 : b.chainId = cid)
    (g2 : ¬ (v = true ∧ false = false ∧ b.header.number = 0))
    (g3 : ¬ (v = true ∧ vo = false)) (g4 : ¬ (v = true ∧ po = false))
    (e1 : S5.headers = fset (b.header.number, b.header.hash) b.header s.headers)
    (e2 : S5.tds = fset (b.header.number, b.header.hash) T s.tds)
    (e3 : S5.hashToNumber = s.hashToNumber)
    (e4 : S5.numberToHash = s.numberToHash)
    (e5 : S5.headHeader = some b.header.hash)
    (e6 : S5.headBlock = some b.header.hash)
    (e7 : S5.bodies = if (false || b.hasBody) = true
      then fset (b.header.number, b.header.hash) 0 s.bodies else s.bodies)
    (hd : deleteStaleAssignments fuel (b.header.number + 1) b.header.hash S5 =
      .ok s6)
    (hrb : rebuildCanonical fuel b.header [] false s6 = .ok s1) :
    putBlockOrHeader cid v vo po false b s1 = .ok s1 := by
  obtain ⟨d1, d2, d3, d4, d5, d6⟩ := deleteStale_frame hd
  have hsub : s6.numberToHash.Sublist s.numberToHash := by
    rw [← e4]
    exact deleteStale_nToH_sublist hd
  have hhb6 : s6.headBlock = some b.header.hash := by
    rcases deleteStale_headBlock hd with h | h
    · exact h.trans e6
    · exact h
  have g1' : s6.headers = fset (b.header.number, b.header.hash) b.header
      s.headers := d1.trans e1
  have g2' : s6.bodies = S5.bodies := d2
  have g3' : s6.tds = fset (b.header.number, b.header.hash) T s.tds :=
    d3.trans e2
  have g4' : s6.hashToNumber = s.hashToNumber := d4.trans e3
  have g5' : s6.headHeader = some b.header.hash := d5.trans e5
  obtain ⟨w1, w2, w3, w4, w5, w6, w7, w8⟩ :=
    staged_write_parts hpc hwf hmem hn0 hptd hTval
  have hsk6 : ∀ e ∈ s6.headers, e.2.number = e.1.1 ∧ e.2.hash = e.1.2 := by
    rw [g1']; exact w3
  have hip6 : ∀ e ∈ s6.headers, e.2 ∈ pool := by rw [g1']; exact w4
  have hht6 : ∀ e ∈ s6.headers, ∃ t, fget e.1 s6.tds = some t := by
    rw [g1', g3']; exact w5
  have hhn6 : ∀ e ∈ s6.hashToNumber, e.1.2 = 0 ∧
      ∃ hdr0, fget (e.2, e.1.1) s6.headers = some hdr0 := by
    rw [g4', g1']; exact w7
  have hnh6 : ∀ e ∈ s6.numberToHash, e.1.2 = 0 ∧
      fget (e.2, 0) s6.hashToNumber = some e.1.1 := by
    intro e he
    have := hwf.nToHOk e (hsub.subset he)
    rw [g4']
    exact this
  have hso16 : SortedP s6.hashToNumber := by rw [g4']; exact hwf.sortedHToN
  have hso26 : SortedP s6.numberToHash :=
    List.Pairwise.sublist hsub hwf.sortedNToH
  have hanc6 : fget (b.header.number, b.header.hash) s6.headers =
      some b.header := by
    rw [g1']; exact fget_fset_self _ _ _
  obtain ⟨c1, c2, c3, c4, c5, c6, c7, c8⟩ :=
    rebuild_walk hpc fuel b.header [] false s6 s1 hrb hsk6 hip6 hhn6 hnh6
      hht6 hso16 hso26 hanc6
  obtain ⟨r1, r2, r3, r4, r5⟩ := rebuild_frame hrb
  have hpinN : ∀ n0, fget (b.header.hash, 0) s.hashToNumber = some n0 →
      n0 = b.header.number := by
    intro n0 h0
    obtain ⟨-, hdr0, hh0⟩ := hwf.hToNOk _ (mem_of_fget h0)
    exact (stored_header_pin hpc hwf.selfKeyed hwf.inPool hmem hh0 rfl).2
  have F5 : s1.headBlock = some b.header.hash := by
    have hstop : ∀ nn sh, nn ≤ b.header.number →
        fget (nn, 0) s6.numberToHash = some sh →
        s6.headBlock = some sh → sh = b.header.hash ∧ nn = b.header.number := by
      intro nn sh hle hgetn hhb
      have hsheq : sh = b.header.hash := by
        have hso := hhb6.symm.trans hhb
        exact (Option.some.inj hso).symm
      refine ⟨hsheq, ?_⟩
      have hmemn : ((nn, 0), sh) ∈ s.numberToHash :=
        hsub.subset (mem_of_fget hgetn)
      have hnto := (hwf.nToHOk _ hmemn).2
      rw [hsheq] at hnto
      exact hpinN nn hnto
    exact (c8 rfl hstop).trans hhb6
  have F4 : s1.headHeader = some b.header.hash := r4.trans g5'
  have F1 : s1.headers = fset (b.header.number, b.header.hash) b.header
      s.headers := r1.trans g1'
  have F2 : s1.tds = fset (b.header.number, b.header.hash) T s.tds :=
    r3.trans g3'
  have F6 : s1.bodies = S5.bodies := r2.trans g2'
  have hTd1 : getTdByHash s1 b.header.hash = some T := by
    refine getTdByHash_eq c5 ?_
    rw [F2]
    exact fget_fset_self _ _ _
  have hne_parent : ((b.header.number - 1 : Nat), b.header.parentHash) ≠
      (b.header.number, b.header.hash) := by
    intro hc
    have hfst := congrArg Prod.fst hc
    simp only [] at hfst
    exact absurd hfst (Nat.ne_of_lt (Nat.pred_lt hn0))
  have hpt1 : fget (b.header.number - 1, b.header.parentHash) s1.tds =
      some ptd := by
    rw [F2, fget_fset_ne _ _ hne_parent]
    exact hptd
  have hctd2 : currentTds s1 false = .ok (T, T) :=
    currentTds_build F4 hTd1 F5 hTd1
  have hbt2 : blockTd s1 false b.header = .ok T := by
    rw [hTval]
    exact blockTd_build hn0 hpt1
  have hdec : ¬ (b.header.number = 0 ∨ T < T) :=
    fun hc => hc.elim hn0 (Nat.lt_irrefl T)
  have hupd : ¬ (T < T ∧ b.isHeader = false) := fun hc => Nat.lt_irrefl T hc.1
  have hri2 : rebuildInfoStep b false T T T s1 = .ok s1 := by
    rw [rebuildInfoStep]
    simp only []
    rw [if_neg hdec, if_neg hupd]
    by_cases hbody : (false || b.hasBody) = true
    · rw [if_pos hbody]
      rw [if_pos hbody] at e7
      refine congrArg Except.ok (chainState_ext ?_ ?_ ?_ ?_ rfl rfl rfl rfl rfl)
      · show fset (b.header.number, b.header.hash) b.header s1.headers =
          s1.headers
        rw [F1, fset_fset]
      · show fset (b.header.number, b.header.hash) 0 s1.bodies = s1.bodies
        rw [F6, e7, fset_fset]
      · show fset (b.header.number, b.header.hash) T s1.tds = s1.tds
        rw [F2, fset_fset]
      · show fset (b.header.hash, 0) b.header.number s1.hashToNumber =
          s1.hashToNumber
        exact fset_id c1 c5
    · rw [if_neg hbody]
      refine congrArg Except.ok (chainState_ext ?_ rfl ?_ ?_ rfl rfl rfl rfl rfl)
      · show fset (b.header.number, b.header.hash) b.header s1.headers =
          s1.headers
        rw [F1, fset_fset]
      · show fset (b.header.number, b.header.hash) T s1.tds = s1.tds
        rw [F2, fset_fset]
      · show fset (b.header.hash, 0) b.header.number s1.hashToNumber =
          s1.hashToNumber
        exact fset_id c1 c5
  exact put_build g1 g2 g3 g4 hctd2 hbt2 hri2

/-- After a losing (non-canonical) put of a full block, re-running the put
pipeline on the result is a no-op: the head tds pin to their previous values
or to the item's own freshly written td, every branch condition resolves the
same way, and all writes rewrite identical key/value pairs. -/
theorem second_put_after_lose {pool : List Header} (hpc : PoolConsistent pool)
    {b : PutItem} {s s1 : ChainState} {T ptd ctdH ctdB H B cid : Nat}
    {v vo po : Bool}
    (hwf : WFChain pool s) (hmem : b.header ∈ pool)
    (hbk : b.isHeader = false)
    (hn0 : ¬ b.header.number = 0)
    (hptd : fget (b.header.number - 1, b.header.parentHash) s.tds = some ptd)
    (hTval : T = ptd + b.header.difficulty)
    (hH : s.headHeader = some H) (hctdH : getTdByHash s H = some ctdH)
    (hB : s.headBlock = some B) (hctdB : getTdByHash s B = some ctdB)
    (hnw : ¬ ctdH < T)
    (g1 : b.chainId = cid)
    (g2 : ¬ (v = true ∧ false = false ∧ b.header.number = 0))
    (g3 : ¬ (v = true ∧ vo = false)) (g4 : ¬ (v = true ∧ po = false))
    (f1 : s1.headers = fset (b.header.number, b.header.hash) b.header s.headers)
    (f2 : s1.tds = fset (b.header.number, b.header.hash) T s.tds)
    (f3 : s1.hashToNumber = fset (b.header.hash, 0) b.header.number
      s.hashToNumber)
    (f4 : s1.numberToHash = s.numberToHash)
    (f5 : s1.headHeader = s.headHeader)
    (f6 : s1.headBlock = some b.header.hash ∨
      (s1.headBlock = s.headBlock ∧ ¬ ctdB < T))
    (f7 : s1.bodies = if (false || b.hasBody) = true
      then fset (b.header.number, b.header.hash) 0 s.bodies else s.bodies) :
    putBlockOrHeader cid v vo po false b s1 = .ok s1 := by
  have hpinN : ∀ n0, fget (b.header.hash, 0) s.hashToNumber = some n0 →
      n0 = b.header.number := by
    intro n0 h0
    obtain ⟨-, hdr0, hh0⟩ := hwf.hToNOk _ (mem_of_fget h0)
    exact (stored_header_pin hpc hwf.selfKeyed hwf.inPool hmem hh0 rfl).2
  have hpinT : ∀ t0, fget (b.header.number, b.header.hash) s.tds = some t0 →
      t0 = T := by
    intro t0 h0
    obtain ⟨hdr1, hh1, -, hrec⟩ := hwf.tdRec _ (mem_of_fget h0)
    obtain ⟨heq1, -⟩ := stored_header_pin hpc hwf.selfKeyed hwf.inPool hmem hh1 rfl
    obtain ⟨tp, htp, hval⟩ := hrec hn0
    rw [heq1] at htp hval
    rw [hptd] at htp
    cases htp
    rw [hTval]
    exact hval
  have hselfT : getTdByHash s1 b.header.hash = some T := by
    refine @getTdByHash_eq s1 b.header.hash b.header.number T ?_ ?_
    · rw [f3]
      exact fget_fset_self _ _ _
    · rw [f2]
      exact fget_fset_self _ _ _
  have htHv : getTdByHash s1 H = some ctdH := by
    rw [getTdByHash] at hctdH
    cases hgH : fget (H, 0) s.hashToNumber with
    | none => rw [hgH] at hctdH; cases hctdH
    | some nH =>
      rw [hgH] at hctdH
      by_cases hHh : H = b.header.hash
      · have hnH : nH = b.header.number := hpinN nH (by rw [← hHh]; exact hgH)
        have hTctd : ctdH = T := by
          apply hpinT
          rw [← hnH, ← hHh]
          exact hctdH
        rw [hHh, hTctd]
        exact hselfT
      · refine @getTdByHash_eq s1 H nH ctdH ?_ ?_
        · rw [f3, fget_fset_ne _ _ (fun hc => hHh (congrArg Prod.fst hc))]
          exact hgH
        · rw [f2, fget_fset_ne _ _ (fun hc => hHh (congrArg Prod.snd hc))]
          exact hctdH
  have htBv : ∃ hb1 tb, s1.headBlock = some hb1 ∧
      getTdByHash s1 hb1 = some tb ∧ ¬ tb < T := by
    rcases f6 with h6 | ⟨h6, hnb⟩
    · exact ⟨b.header.hash, T, h6, hselfT, Nat.lt_irrefl T⟩
    · rw [getTdByHash] at hctdB
      cases hgB : fget (B, 0) s.hashToNumber with
      | none => rw [hgB] at hctdB; cases hctdB
      | some nB =>
        rw [hgB] at hctdB
        by_cases hBh : B = b.header.hash
        · exact ⟨B, T, by rw [h6, hB], by rw [hBh]; exact hselfT,
            Nat.lt_irrefl T⟩
        · refine ⟨B, ctdB, by rw [h6, hB], @getTdByHash_eq s1 B nB ctdB ?_ ?_,
            hnb⟩
          · rw [f3, fget_fset_ne _ _ (fun hc => hBh (congrArg Prod.fst hc))]
            exact hgB
          · rw [f2, fget_fset_ne _ _ (fun hc => hBh (congrArg Prod.snd hc))]
            exact hctdB
  obtain ⟨hb1, tb, hhb1, htb, hnb⟩ := htBv
  have hne_parent : ((b.header.number - 1 : Nat), b.header.parentHash) ≠
      (b.header.number, b.header.hash) := by
    intro hc
    have hfst := congrArg Prod.fst hc
    simp only [] at hfst
    exact absurd hfst (Nat.ne_of_lt (Nat.pred_lt hn0))
  have hpt1 : fget (b.header.number - 1, b.header.parentHash) s1.tds =
      some ptd := by
    rw [f2, fget_fset_ne _ _ hne_parent]
    exact hptd
  have hctd2 : currentTds s1 false = .ok (ctdH, tb) :=
    currentTds_build (f5.trans hH) htHv hhb1 htb
  have hbt2 : blockTd s1 false b.header = .ok T := by
    rw [hTval]
    exact blockTd_build hn0 hpt1
  have hdec : ¬ (b.header.number = 0 ∨ ctdH < T) := fun hc => hc.elim hn0 hnw
  have hupd : ¬ (tb < T ∧ b.isHeader = false) := fun hc => hnb hc.1
  have hri2 : rebuildInfoStep b false T ctdH tb s1 = .ok s1 := by
    rw [rebuildInfoStep]
    simp only []
    rw [if_neg hdec, if_neg hupd]
    by_cases hbody : (false || b.hasBody) = true
    · rw [if_pos hbody]
      rw [if_pos hbody] at f7
      refine congrArg Except.ok (chainState_ext ?_ ?_ ?_ ?_ rfl rfl rfl rfl rfl)
      · show fset (b.header.number, b.header.hash) b.header s1.headers =
          s1.headers
        rw [f1, fset_fset]
      · show fset (b.header.number, b.header.hash) 0 s1.bodies = s1.bodies
        rw [f7, fset_fset]
      · show fset (b.header.number, b.header.hash) T s1.tds = s1.tds
        rw [f2, fset_fset]
      · show fset (b.header.hash, 0) b.header.number s1.hashToNumber =
          s1.hashToNumber
        rw [f3, fset_fset]
    · rw [if_neg hbody]
      refine congrArg Except.ok (chainState_ext ?_ rfl ?_ ?_ rfl rfl rfl rfl rfl)
      · show fset (b.header.number, b.header.hash) b.header s1.headers =
          s1.headers
        rw [f1, fset_fset]
      · show fset (b.header.number, b.header.hash) T s1.tds = s1.tds
        rw [f2, fset_fset]
      · show fset (b.header.hash, 0) b.header.number s1.hashToNumber =
          s1.hashToNumber
        rw [f3, fset_fset]
  exact put_build g1 g2 g3 g4 hctd2 hbt2 hri2

/-- Claim C8: for a full block whose header is content-addressed within the
pool, running the put pipeline twice in sequence on a well-formed state
produces exactly the same store and head-pointer state as running it once —
the second put only rewrites identical key/value pairs and changes neither
`headHeader` nor `headBlock` nor any iterator head. -/
theorem putBlock_idempotent (cid : Nat) (v vo po : Bool) (b : PutItem)
    (pool : List Header) (s : ChainState)
    (hpc : PoolConsistent pool) (hmem : b.header ∈ pool)
    (hwf : WFChain pool s) (hbk : b.isHeader = false) :
    runPut cid v vo po false b (runPut cid v vo po false b s) =
      runPut cid v vo po false b s := by
  cases hp : putBlockOrHeader cid v vo po false b s with
  | error e =>
    have h1 : runPut cid v vo po false b s = s := by
      simp only [runPut, hp]
    rw [h1]
    exact h1
  | ok s1 =>
    have h1 : runPut cid v vo po false b s = s1 := by
      simp only [runPut, hp]
    rw [h1]
    obtain ⟨ctdH, ctdB, T, hc, hb2, hr⟩ := put_ok_destruct hp
    obtain ⟨H, B, hH, hctdH, hB, hctdB⟩ := currentTds_ok_destruct hc
    obtain ⟨hn0, ptd, hptd, hTval⟩ := blockTd_ok_destruct hb2
    obtain ⟨g1, g2, g3, g4⟩ := put_ok_guards hp
    rw [rebuildInfoStep] at hr
    simp only [] at hr
    by_cases hwin : b.header.number = 0 ∨ ctdH < T
    · rw [if_pos hwin] at hr
      obtain ⟨s6, hd, hrb⟩ := except_bind_ok hr
      have h2 : putBlockOrHeader cid v vo po false b s1 = .ok s1 := by
        refine second_put_after_wins hpc hwf hmem hbk hn0 hptd hTval g1 g2 g3
          g4 ?_ ?_ ?_ ?_ ?_ ?_ ?_ hd hrb
        · split_ifs <;> rfl
        · split_ifs <;> rfl
        · split_ifs <;> rfl
        · split_ifs <;> rfl
        · split_ifs <;> rfl
        · split_ifs <;> first | rfl | simp_all
        · split_ifs <;> rfl
      simp only [runPut, h2]
    · rw [if_neg hwin] at hr
      have hnw : ¬ ctdH < T := fun hlt => hwin (Or.inr hlt)
      split_ifs at hr with hu hbo
      · have hs1 := (Except.ok.inj hr).symm
        have h2 : putBlockOrHeader cid v vo po false b s1 = .ok s1 := by
          refine second_put_after_lose hpc hwf hmem hbk hn0 hptd hTval hH
            hctdH hB hctdB hnw g1 g2 g3 g4 ?_ ?_ ?_ ?_ ?_ ?_ ?_
          · rw [hs1]
          · rw [hs1]
          · rw [hs1]
          · rw [hs1]
          · rw [hs1]
          · exact Or.inl (by rw [hs1])
          · rw [hs1]
            split_ifs <;> first | rfl | simp_all
        simp only [runPut, h2]
      · have hs1 := (Except.ok.inj hr).symm
        have h2 : putBlockOrHeader cid v vo po false b s1 = .ok s1 := by
          refine second_put_after_lose hpc hwf hmem hbk hn0 hptd hTval hH
            hctdH hB hctdB hnw g1 g2 g3 g4 ?_ ?_ ?_ ?_ ?_ ?_ ?_
          · rw [hs1]
          · rw [hs1]
          · rw [hs1]
          · rw [hs1]
          · rw [hs1]
          · exact Or.inl (by rw [hs1])
          · rw [hs1]
            split_ifs <;> first | rfl | simp_all
        simp only [runPut, h2]
      · have hs1 := (Except.ok.inj hr).symm
        have h2 : putBlockOrHeader cid v vo po false b s1 = .ok s1 := by
          refine second_put_after_lose hpc hwf hmem hbk hn0 hptd hTval hH
            hctdH hB hctdB hnw g1 g2 g3 g4 ?_ ?_ ?_ ?_ ?_ ?_ ?_
          · rw [hs1]
          · rw [hs1]
          · rw [hs1]
          · rw [hs1]
          · rw [hs1]
          · exact Or.inr ⟨by rw [hs1], fun hlt => hu ⟨hlt, hbk⟩⟩
          · rw [hs1]
            split_ifs <;> first | rfl | simp_all
        simp only [runPut, h2]
      · have hs1 := (Except.ok.inj hr).symm
        have h2 : putBlockOrHeader cid v vo po false b s1 = .ok s1 := by
          refine second_put_after_lose hpc hwf hmem hbk hn0 hptd hTval hH
            hctdH hB hctdB hnw g1 g2 g3 g4 ?_ ?_ ?_ ?_ ?_ ?_ ?_
          · rw [hs1]
          · rw [hs1]
          · rw [hs1]
          · rw [hs1]
          · rw [hs1]
          · exact Or.inr ⟨by rw [hs1], fun hlt => hu ⟨hlt, hbk⟩⟩
          · rw [hs1]
            split_ifs <;> first | rfl | simp_all
        simp only [runPut, h2]

/-- Witness for C8: putting block 1 on the genesis-only store twice gives
the same state as putting it once; the invariant hypothesis is established
by `_init` on the empty store. -/
theorem putBlock_idempotent_witness :
    runPut 1 false true true false
      { header := cBlock1, isHeader := false, hasBody := false, chainId := 1 }
      (runPut 1 false true true false
        { header := cBlock1, isHeader := false, hasBody := false, chainId := 1 }
        genesisOnly) =
    runPut 1 false true true false
      { header := cBlock1, isHeader := false, hasBody := false, chainId := 1 }
      genesisOnly :=
  putBlock_idempotent 1 false true true
    { header := cBlock1, isHeader := false, hasBody := false, chainId := 1 }
    [cGenesis, cBlock1] genesisOnly (by decide) (by decide)
    (init_WF (by decide) rfl
      (rfl : initState 1 false true true cGenesis = .ok genesisOnly)) rfl
